import Mathlib

/-!
# Verification of the cellfinder `BallFilter` (3D spherical-kernel cell detector)

Shallow embedding of `cellfinder/core/detect/filters/volume/ball_filter.py`.

Modelling conventions:
* 2D/3D numpy arrays become total functions from indices; the array shapes are
  carried separately where the code depends on them (slice truncation, bounds).
* Python/numpy floating point numbers are modelled as exact rationals `ℚ`.
* `uint32` intensities are modelled as `ℕ` (the code only stores and compares
  them, so no wrap-around arithmetic occurs).
* Sequential `for` loops that accumulate a commutative sum become `Finset`
  sums; loops with early exit or in-place mutation become explicit recursion
  or folds in program order (`y` outer, `x` inner, as in the source).

`make_sphere` and `bin_mean_3d` live in `cellfinder.core.tools`, outside the
sources at hand; they are modelled from the spec (see their doc comments).
Everything else is translated from `ball_filter.py`.
-/

namespace BallFilterModel

/-- Intensity plane: value at pixel `(x, y)`. -/
abbrev Plane := ℕ → ℕ → ℕ

/-- Boolean tile-mask plane: value at tile `(x, y)`. -/
abbrev MaskPlane := ℕ → ℕ → Bool

/-- 3D intensity volume: value at voxel `(x, y, z)`. -/
abbrev Volume := ℕ → ℕ → ℕ → ℕ

/-- 3D boolean tile array: value at `(tile_x, tile_y, z)`. -/
abbrev TileArr := ℕ → ℕ → ℕ → Bool

/-- Modelled from the spec: `make_sphere` (from `cellfinder.core.tools.geometry`,
not among the sources) builds a binary occupancy volume of a sphere: a voxel is
occupied iff its (Euclidean) distance from the centre is at most the radius.
Returned as the occupancy test of voxel `(x, y, z)` for centre `(c0, c1, c2)`. -/
def make_sphere (radius : ℚ) (c0 c1 c2 : ℚ) (x y z : ℕ) : Bool :=
  decide (((x : ℚ) - c0) ^ 2 + ((y : ℚ) - c1) ^ 2 + ((z : ℚ) - c2) ^ 2 ≤ radius ^ 2)

/-- Integer-arithmetic mirror of the occupancy test of the upscaled sphere used
by the kernel construction (centre `⌊shape/2⌋`, radius `shape[0]/2`, shape
`(7*kxy, 7*kxy, 7*kz)`): the rational comparison is cross-multiplied by `4`.
Kernel-reducible, used to evaluate concrete instances. -/
def insideX (kxy kz : ℕ) (a b c : ℕ) : Bool :=
  decide (4 * (((a : ℤ) - (7 * kxy / 2 : ℕ)) ^ 2 + ((b : ℤ) - (7 * kxy / 2 : ℕ)) ^ 2
      + ((c : ℤ) - (7 * kz / 2 : ℕ)) ^ 2) ≤ ((7 * kxy : ℕ) : ℤ) ^ 2)

/-- Number of occupied fine voxels inside one `7×7×7` box-averaging bin of the
upscaled sphere: the integer numerator of the kernel entry at `(x, y, z)`
(denominator `343`). -/
def sphereCountX (kxy kz : ℕ) (x y z : ℕ) : ℕ :=
  ∑ i ∈ Finset.range 7, ∑ j ∈ Finset.range 7, ∑ k ∈ Finset.range 7,
    if insideX kxy kz (x * 7 + i) (y * 7 + j) (z * 7 + k) then 1 else 0

/-- Modelled from the spec: `bin_mean_3d` (from
`cellfinder.core.tools.array_operations`, not among the sources) downsamples by
non-overlapping box-averaging with the given bin sizes along the three axes. -/
def bin_mean_3d (f : ℕ → ℕ → ℕ → ℚ) (bin_height bin_width bin_depth : ℕ)
    (x y z : ℕ) : ℚ :=
  (∑ i ∈ Finset.range bin_height, ∑ j ∈ Finset.range bin_width,
      ∑ k ∈ Finset.range bin_depth,
        f (x * bin_height + i) (y * bin_width + j) (z * bin_depth + k)) /
    ((bin_height : ℚ) * bin_width * bin_depth)

/-- Constructor configuration of `BallFilter.__init__`. -/
structure BallFilterConfig where
  plane_width : ℕ
  plane_height : ℕ
  ball_xy_size : ℕ
  ball_z_size : ℕ
  overlap_fraction : ℚ
  tile_step_width : ℕ
  tile_step_height : ℕ
  THRESHOLD_VALUE : ℕ
  SOMA_CENTRE_VALUE : ℕ

namespace BallFilterConfig

/-- `upscale_factor: int = 7` in `BallFilter.__init__`. -/
def upscale_factor : ℕ := 7

/-- The spherical kernel built in `BallFilter.__init__`: a binary sphere is
generated at `upscale_factor` times the resolution (shape
`(7*ball_xy_size, 7*ball_xy_size, 7*ball_z_size)`, centre at the floor of half
the shape, radius half of the first shape component) and box-averaged down. -/
def kernel (c : BallFilterConfig) (x y z : ℕ) : ℚ :=
  bin_mean_3d
    (fun i j k =>
      if make_sphere (((upscale_factor * c.ball_xy_size : ℕ) : ℚ) / 2)
          ((upscale_factor * c.ball_xy_size / 2 : ℕ) : ℚ)
          ((upscale_factor * c.ball_xy_size / 2 : ℕ) : ℚ)
          ((upscale_factor * c.ball_z_size / 2 : ℕ) : ℚ) i j k
      then (1 : ℚ) else 0)
    upscale_factor upscale_factor upscale_factor x y z

/-- `self.overlap_threshold = np.sum(self.overlap_fraction * self.kernel)`. -/
def overlap_threshold (c : BallFilterConfig) : ℚ :=
  ∑ x ∈ Finset.range c.ball_xy_size, ∑ y ∈ Finset.range c.ball_xy_size,
    ∑ z ∈ Finset.range c.ball_z_size, c.overlap_fraction * c.kernel x y z

/-- `self.middle_z_idx = int(np.floor(ball_z_size / 2))`. -/
def middle_z_idx (c : BallFilterConfig) : ℕ := c.ball_z_size / 2

/-- `int(np.ceil(a / b))` for the tile counts. -/
def ceilDiv (a b : ℕ) : ℕ := (a + b - 1) / b

/-- First dimension of `self.inside_brain_tiles`. -/
def tilesX (c : BallFilterConfig) : ℕ := ceilDiv c.plane_width c.tile_step_width

/-- Second dimension of `self.inside_brain_tiles`. -/
def tilesY (c : BallFilterConfig) : ℕ := ceilDiv c.plane_height c.tile_step_height

end BallFilterConfig

/-- Mutable state of a `BallFilter` instance: the ring-buffer volume, the tile
mask, and the insertion index `self.__current_z` (initially `-1`). -/
structure BallFilterState where
  volume : Volume
  inside_brain_tiles : TileArr
  current_z : ℤ

/-- `BallFilter.ready`: `self.__current_z == self.ball_z_size - 1`. -/
def ready (c : BallFilterConfig) (s : BallFilterState) : Bool :=
  decide (s.current_z = (c.ball_z_size : ℤ) - 1)

/-- `BallFilter.append`: while not ready, advance `current_z`; once ready,
`np.roll(_, -1, axis=2)` both arrays (slot `z` receives slot `(z+1) % depth`).
Then the new plane and mask are written at slot `current_z`. -/
def append (c : BallFilterConfig) (s : BallFilterState) (plane : Plane)
    (mask : MaskPlane) : BallFilterState :=
  let s' : BallFilterState :=
    if ready c s then
      { s with
        volume := fun x y z => s.volume x y ((z + 1) % c.ball_z_size)
        inside_brain_tiles := fun x y z =>
          s.inside_brain_tiles x y ((z + 1) % c.ball_z_size) }
    else { s with current_z := s.current_z + 1 }
  { volume := fun x y z =>
      if (z : ℤ) = s'.current_z then plane x y else s'.volume x y z
    inside_brain_tiles := fun x y z =>
      if (z : ℤ) = s'.current_z then mask x y else s'.inside_brain_tiles x y z
    current_z := s'.current_z }

/-- `BallFilter.get_middle_plane`: the volume slice at `middle_z_idx`. -/
def get_middle_plane (c : BallFilterConfig) (s : BallFilterState) : Plane :=
  fun x y => s.volume x y c.middle_z_idx

/-- One z-slot contribution in `_cube_overlaps`: the inner
`for y: for x: if cube[x, y, z] >= THRESHOLD_VALUE: acc += kernel[x, y, z]`
double loop, as a sum (the accumulation is commutative). -/
def cubeSlotSum (w h : ℕ) (cube : ℕ → ℕ → ℕ → ℕ) (THRESHOLD_VALUE : ℕ)
    (kernel : ℕ → ℕ → ℕ → ℚ) (z : ℕ) : ℚ :=
  ∑ y ∈ Finset.range h, ∑ x ∈ Finset.range w,
    if THRESHOLD_VALUE ≤ cube x y z then kernel x y z else 0

/-- The z-loop of `_cube_overlaps` over the remaining z-slots, carrying
`current_overlap_value`. At `z == middle`, if the accumulated value is below
`overlap_threshold * 0.4`, return `False` early; after the loop, return
`current_overlap_value > overlap_threshold`. -/
def cubeLoop (middle : ℕ) (overlap_threshold : ℚ) (slot : ℕ → ℚ) :
    List ℕ → ℚ → Bool
  | [], acc => decide (overlap_threshold < acc)
  | z :: zs, acc =>
    if z = middle ∧ acc < overlap_threshold * 0.4 then false
    else cubeLoop middle overlap_threshold slot zs (acc + slot z)

/-- `_cube_overlaps(cube, overlap_threshold, THRESHOLD_VALUE, kernel)` for a
cube of shape `(w, h, d)`; `middle = np.floor(cube.shape[2] / 2) + 1`. -/
def _cube_overlaps (w h d : ℕ) (cube : ℕ → ℕ → ℕ → ℕ) (overlap_threshold : ℚ)
    (THRESHOLD_VALUE : ℕ) (kernel : ℕ → ℕ → ℕ → ℚ) : Bool :=
  cubeLoop (d / 2 + 1) overlap_threshold
    (cubeSlotSum w h cube THRESHOLD_VALUE kernel) (List.range d) 0

/-- `_is_tile_to_check(x, y, middle_z, tile_step_width, tile_step_height,
inside_brain_tiles)`. -/
def _is_tile_to_check (x y middle_z tile_step_width tile_step_height : ℕ)
    (inside_brain_tiles : TileArr) : Bool :=
  inside_brain_tiles (x / tile_step_width) (y / tile_step_height) middle_z

/-- The body of the candidate loop in `_walk`, reading intensities from
`read_volume` and writing the mark into `volume` (in `_walk` itself both are
the same, live array). The cube is the numpy slice
`volume[x : x+kernel.shape[0], y : y+kernel.shape[1], :]`, whose shape is
truncated at the volume shape `(plane_width, plane_height, depth)`. -/
def walkStepOn (tile_step_width tile_step_height : ℕ)
    (inside_brain_tiles : TileArr) (plane_width plane_height depth : ℕ)
    (ball_xy_size ball_radius middle_z : ℕ) (overlap_threshold : ℚ)
    (kernel : ℕ → ℕ → ℕ → ℚ) (THRESHOLD_VALUE SOMA_CENTRE_VALUE : ℕ)
    (read_volume volume : Volume) (y x : ℕ) : Volume :=
  let ball_centre_x := x + ball_radius
  let ball_centre_y := y + ball_radius
  if _is_tile_to_check ball_centre_x ball_centre_y middle_z tile_step_width
      tile_step_height inside_brain_tiles then
    if _cube_overlaps (min (x + ball_xy_size) plane_width - x)
        (min (y + ball_xy_size) plane_height - y) depth
        (fun i j k => read_volume (x + i) (y + j) k)
        overlap_threshold THRESHOLD_VALUE kernel then
      fun a b k =>
        if a = ball_centre_x ∧ b = ball_centre_y ∧ k = middle_z
        then SOMA_CENTRE_VALUE else volume a b k
    else volume
  else volume

/-- `_walk`: for `y in range(max_height): for x in range(max_width)`, test and
mark candidates against the live, in-place mutated volume. -/
def _walk (max_height max_width tile_step_width tile_step_height : ℕ)
    (inside_brain_tiles : TileArr) (plane_width plane_height depth : ℕ)
    (volume : Volume) (ball_xy_size : ℕ) (kernel : ℕ → ℕ → ℕ → ℚ)
    (ball_radius middle_z : ℕ) (overlap_threshold : ℚ)
    (THRESHOLD_VALUE SOMA_CENTRE_VALUE : ℕ) : Volume :=
  (List.range max_height).foldl
    (fun v y =>
      (List.range max_width).foldl
        (fun w x =>
          walkStepOn tile_step_width tile_step_height inside_brain_tiles
            plane_width plane_height depth ball_xy_size ball_radius middle_z
            overlap_threshold kernel THRESHOLD_VALUE SOMA_CENTRE_VALUE w w y x)
        v)
    volume

/-- `BallFilter.walk`: computes `max_width`/`max_height` from the tile-covered
extent and runs `_walk` on the state's volume in place. (In Python the
subtraction can go negative, making the ranges empty; `ℕ` truncation at `0`
yields the same empty ranges.) -/
def walk (c : BallFilterConfig) (s : BallFilterState) : BallFilterState :=
  let ball_radius := c.ball_xy_size / 2
  let tile_mask_covered_img_width := c.tilesX * c.tile_step_width
  let tile_mask_covered_img_height := c.tilesY * c.tile_step_height
  let max_width := tile_mask_covered_img_width - c.ball_xy_size
  let max_height := tile_mask_covered_img_height - c.ball_xy_size
  { s with
    volume :=
      _walk max_height max_width c.tile_step_width c.tile_step_height
        s.inside_brain_tiles c.plane_width c.plane_height c.ball_z_size
        s.volume c.ball_xy_size c.kernel ball_radius c.middle_z_idx
        c.overlap_threshold c.THRESHOLD_VALUE c.SOMA_CENTRE_VALUE }

/-- Appending the first `n` planes/masks of a sequence, starting from a fresh
state (`current_z = -1`, arbitrary initial array contents). -/
def appendSeq (c : BallFilterConfig) (planes : ℕ → Plane) (masks : ℕ → MaskPlane)
    (v0 : Volume) (t0 : TileArr) : ℕ → BallFilterState
  | 0 => ⟨v0, t0, -1⟩
  | n + 1 => append c (appendSeq c planes masks v0 t0 n) (planes n) (masks n)

/-! ## Integer mirrors

Kernel-reducible integer mirrors of the rational scanning code, used to settle
concrete instances by `decide`. Kernel weights are represented as integer
numerators `K` over a common positive denominator `D`, and the overlap
threshold as `tn / td`; every rational comparison of the source is
cross-multiplied. Bridge lemmas below prove them equal to the rational
definitions. -/

/-- Mirror of `cubeSlotSum` with integer kernel numerators. -/
def cubeSlotSumX (w h : ℕ) (cube : ℕ → ℕ → ℕ → ℕ) (THRESHOLD_VALUE : ℕ)
    (K : ℕ → ℕ → ℕ → ℤ) (z : ℕ) : ℤ :=
  ∑ y ∈ Finset.range h, ∑ x ∈ Finset.range w,
    if THRESHOLD_VALUE ≤ cube x y z then K x y z else 0

/-- Mirror of `cubeLoop`: `acc/D < (tn/td) * (2/5)` becomes
`acc * (5*td) < 2 * (tn*D)`, and `tn/td < acc/D` becomes `tn*td' ...`
cross-multiplied. -/
def cubeLoopX (middle : ℕ) (tn td D : ℤ) (slot : ℕ → ℤ) : List ℕ → ℤ → Bool
  | [], acc => decide (tn * D < acc * td)
  | z :: zs, acc =>
    if z = middle ∧ acc * (5 * td) < 2 * (tn * D) then false
    else cubeLoopX middle tn td D slot zs (acc + slot z)

/-- Mirror of `_cube_overlaps`. -/
def cubeOverlapsX (w h d : ℕ) (cube : ℕ → ℕ → ℕ → ℕ) (tn td D : ℤ)
    (THRESHOLD_VALUE : ℕ) (K : ℕ → ℕ → ℕ → ℤ) : Bool :=
  cubeLoopX (d / 2 + 1) tn td D (cubeSlotSumX w h cube THRESHOLD_VALUE K)
    (List.range d) 0

/-- Mirror of `walkStepOn`. -/
def walkStepOnX (tile_step_width tile_step_height : ℕ)
    (inside_brain_tiles : TileArr) (plane_width plane_height depth : ℕ)
    (ball_xy_size ball_radius middle_z : ℕ) (tn td D : ℤ)
    (K : ℕ → ℕ → ℕ → ℤ) (THRESHOLD_VALUE SOMA_CENTRE_VALUE : ℕ)
    (read_volume volume : Volume) (y x : ℕ) : Volume :=
  let ball_centre_x := x + ball_radius
  let ball_centre_y := y + ball_radius
  if _is_tile_to_check ball_centre_x ball_centre_y middle_z tile_step_width
      tile_step_height inside_brain_tiles then
    if cubeOverlapsX (min (x + ball_xy_size) plane_width - x)
        (min (y + ball_xy_size) plane_height - y) depth
        (fun i j k => read_volume (x + i) (y + j) k) tn td D THRESHOLD_VALUE K
    then
      fun a b k =>
        if a = ball_centre_x ∧ b = ball_centre_y ∧ k = middle_z
        then SOMA_CENTRE_VALUE else volume a b k
    else volume
  else volume

/-- Mirror of `_walk`. -/
def _walkX (max_height max_width tile_step_width tile_step_height : ℕ)
    (inside_brain_tiles : TileArr) (plane_width plane_height depth : ℕ)
    (volume : Volume) (ball_xy_size : ℕ) (K : ℕ → ℕ → ℕ → ℤ)
    (ball_radius middle_z : ℕ) (tn td D : ℤ)
    (THRESHOLD_VALUE SOMA_CENTRE_VALUE : ℕ) : Volume :=
  (List.range max_height).foldl
    (fun v y =>
      (List.range max_width).foldl
        (fun w x =>
          walkStepOnX tile_step_width tile_step_height inside_brain_tiles
            plane_width plane_height depth ball_xy_size ball_radius middle_z
            tn td D K THRESHOLD_VALUE SOMA_CENTRE_VALUE w w y x)
        v)
    volume

/-! ## Frozen-snapshot comparison scan (for the refinement claim)

Modelled from the spec: the comparison scan that "tests every candidate
against a frozen pre-scan snapshot of the volume" — identical to `_walk`
except that every candidate's overlap test reads the initial volume, while
marks still accumulate in the output. -/

/-- Frozen-snapshot variant of `_walk` (overlap tests read the initial
`volume`, not the live buffer). -/
def _walkFrozen (max_height max_width tile_step_width tile_step_height : ℕ)
    (inside_brain_tiles : TileArr) (plane_width plane_height depth : ℕ)
    (volume : Volume) (ball_xy_size : ℕ) (kernel : ℕ → ℕ → ℕ → ℚ)
    (ball_radius middle_z : ℕ) (overlap_threshold : ℚ)
    (THRESHOLD_VALUE SOMA_CENTRE_VALUE : ℕ) : Volume :=
  (List.range max_height).foldl
    (fun v y =>
      (List.range max_width).foldl
        (fun w x =>
          walkStepOn tile_step_width tile_step_height inside_brain_tiles
            plane_width plane_height depth ball_xy_size ball_radius middle_z
            overlap_threshold kernel THRESHOLD_VALUE SOMA_CENTRE_VALUE
            volume w y x)
        v)
    volume

/-- Mirror of `_walkFrozen`. -/
def _walkFrozenX (max_height max_width tile_step_width tile_step_height : ℕ)
    (inside_brain_tiles : TileArr) (plane_width plane_height depth : ℕ)
    (volume : Volume) (ball_xy_size : ℕ) (K : ℕ → ℕ → ℕ → ℤ)
    (ball_radius middle_z : ℕ) (tn td D : ℤ)
    (THRESHOLD_VALUE SOMA_CENTRE_VALUE : ℕ) : Volume :=
  (List.range max_height).foldl
    (fun v y =>
      (List.range max_width).foldl
        (fun w x =>
          walkStepOnX tile_step_width tile_step_height inside_brain_tiles
            plane_width plane_height depth ball_xy_size ball_radius middle_z
            tn td D K THRESHOLD_VALUE SOMA_CENTRE_VALUE volume w y x)
        v)
    volume

/-- `BallFilter.walk` against a frozen pre-scan snapshot (comparison scan). -/
def walkFrozen (c : BallFilterConfig) (s : BallFilterState) : BallFilterState :=
  let ball_radius := c.ball_xy_size / 2
  let max_width := c.tilesX * c.tile_step_width - c.ball_xy_size
  let max_height := c.tilesY * c.tile_step_height - c.ball_xy_size
  { s with
    volume :=
      _walkFrozen max_height max_width c.tile_step_width c.tile_step_height
        s.inside_brain_tiles c.plane_width c.plane_height c.ball_z_size
        s.volume c.ball_xy_size c.kernel ball_radius c.middle_z_idx
        c.overlap_threshold c.THRESHOLD_VALUE c.SOMA_CENTRE_VALUE }

/-! ## Bounds-checked scan (for the safety claim)

The same scan with every array access that numpy basic indexing performs
checked against the array shapes: the tile-mask read in `_is_tile_to_check`
(shape `(tilesX, tilesY, depth)`) and the in-place mark write
`volume[ball_centre_x, ball_centre_y, middle_z]` (shape
`(plane_width, plane_height, depth)`). The cube is a numpy *slice*, which
truncates rather than raising, so it needs no check. An out-of-bounds access
takes the `none` branch. -/

/-- Bounds-checked variant of the `_walk` loop body. -/
def walkStepCheckedOn (tile_step_width tile_step_height : ℕ)
    (inside_brain_tiles : TileArr) (tiles_x tiles_y : ℕ)
    (plane_width plane_height depth : ℕ)
    (ball_xy_size ball_radius middle_z : ℕ) (overlap_threshold : ℚ)
    (kernel : ℕ → ℕ → ℕ → ℚ) (THRESHOLD_VALUE SOMA_CENTRE_VALUE : ℕ)
    (read_volume volume : Volume) (y x : ℕ) : Option Volume :=
  let ball_centre_x := x + ball_radius
  let ball_centre_y := y + ball_radius
  if ball_centre_x / tile_step_width < tiles_x ∧
      ball_centre_y / tile_step_height < tiles_y ∧ middle_z < depth then
    if _is_tile_to_check ball_centre_x ball_centre_y middle_z tile_step_width
        tile_step_height inside_brain_tiles then
      if _cube_overlaps (min (x + ball_xy_size) plane_width - x)
          (min (y + ball_xy_size) plane_height - y) depth
          (fun i j k => read_volume (x + i) (y + j) k)
          overlap_threshold THRESHOLD_VALUE kernel then
        if ball_centre_x < plane_width ∧ ball_centre_y < plane_height ∧
            middle_z < depth then
          some fun a b k =>
            if a = ball_centre_x ∧ b = ball_centre_y ∧ k = middle_z
            then SOMA_CENTRE_VALUE else volume a b k
        else none
      else some volume
    else some volume
  else none

/-- Bounds-checked variant of `_walk`. -/
def _walkChecked (max_height max_width tile_step_width tile_step_height : ℕ)
    (inside_brain_tiles : TileArr) (tiles_x tiles_y : ℕ)
    (plane_width plane_height depth : ℕ) (volume : Volume) (ball_xy_size : ℕ)
    (kernel : ℕ → ℕ → ℕ → ℚ) (ball_radius middle_z : ℕ)
    (overlap_threshold : ℚ) (THRESHOLD_VALUE SOMA_CENTRE_VALUE : ℕ) :
    Option Volume :=
  (List.range max_height).foldl
    (fun acc y =>
      (List.range max_width).foldl
        (fun acc' x =>
          acc'.bind fun w =>
            walkStepCheckedOn tile_step_width tile_step_height
              inside_brain_tiles tiles_x tiles_y plane_width plane_height
              depth ball_xy_size ball_radius middle_z overlap_threshold kernel
              THRESHOLD_VALUE SOMA_CENTRE_VALUE w w y x)
        acc)
    (some volume)

/-- Mirror of `walkStepCheckedOn`. -/
def walkStepCheckedOnX (tile_step_width tile_step_height : ℕ)
    (inside_brain_tiles : TileArr) (tiles_x tiles_y : ℕ)
    (plane_width plane_height depth : ℕ)
    (ball_xy_size ball_radius middle_z : ℕ) (tn td D : ℤ)
    (K : ℕ → ℕ → ℕ → ℤ) (THRESHOLD_VALUE SOMA_CENTRE_VALUE : ℕ)
    (read_volume volume : Volume) (y x : ℕ) : Option Volume :=
  let ball_centre_x := x + ball_radius
  let ball_centre_y := y + ball_radius
  if ball_centre_x / tile_step_width < tiles_x ∧
      ball_centre_y / tile_step_height < tiles_y ∧ middle_z < depth then
    if _is_tile_to_check ball_centre_x ball_centre_y middle_z tile_step_width
        tile_step_height inside_brain_tiles then
      if cubeOverlapsX (min (x + ball_xy_size) plane_width - x)
          (min (y + ball_xy_size) plane_height - y) depth
          (fun i j k => read_volume (x + i) (y + j) k) tn td D
          THRESHOLD_VALUE K then
        if ball_centre_x < plane_width ∧ ball_centre_y < plane_height ∧
            middle_z < depth then
          some fun a b k =>
            if a = ball_centre_x ∧ b = ball_centre_y ∧ k = middle_z
            then SOMA_CENTRE_VALUE else volume a b k
        else none
      else some volume
    else some volume
  else none

/-- Mirror of `_walkChecked`. -/
def _walkCheckedX (max_height max_width tile_step_width tile_step_height : ℕ)
    (inside_brain_tiles : TileArr) (tiles_x tiles_y : ℕ)
    (plane_width plane_height depth : ℕ) (volume : Volume) (ball_xy_size : ℕ)
    (K : ℕ → ℕ → ℕ → ℤ) (ball_radius middle_z : ℕ) (tn td D : ℤ)
    (THRESHOLD_VALUE SOMA_CENTRE_VALUE : ℕ) : Option Volume :=
  (List.range max_height).foldl
    (fun acc y =>
      (List.range max_width).foldl
        (fun acc' x =>
          acc'.bind fun w =>
            walkStepCheckedOnX tile_step_width tile_step_height
              inside_brain_tiles tiles_x tiles_y plane_width plane_height
              depth ball_xy_size ball_radius middle_z tn td D K
              THRESHOLD_VALUE SOMA_CENTRE_VALUE w w y x)
        acc)
    (some volume)

/-- `BallFilter.walk` with every numpy basic-indexing access bounds-checked. -/
def walkChecked (c : BallFilterConfig) (s : BallFilterState) : Option Volume :=
  let ball_radius := c.ball_xy_size / 2
  let max_width := c.tilesX * c.tile_step_width - c.ball_xy_size
  let max_height := c.tilesY * c.tile_step_height - c.ball_xy_size
  _walkChecked max_height max_width c.tile_step_width c.tile_step_height
    s.inside_brain_tiles c.tilesX c.tilesY c.plane_width c.plane_height
    c.ball_z_size s.volume c.ball_xy_size c.kernel ball_radius c.middle_z_idx
    c.overlap_threshold c.THRESHOLD_VALUE c.SOMA_CENTRE_VALUE

/-! ## Bridge lemmas between the rational definitions and the integer mirrors -/

theorem sphere_test_cast (M p q a b c : ℕ) :
    (((a : ℚ) - p) ^ 2 + ((b : ℚ) - p) ^ 2 + ((c : ℚ) - q) ^ 2 ≤
        ((M : ℚ) / 2) ^ 2) ↔
      4 * (((a : ℤ) - p) ^ 2 + ((b : ℤ) - p) ^ 2 + ((c : ℤ) - q) ^ 2) ≤
        (M : ℤ) ^ 2 := by
  rw [div_pow, le_div_iff₀ (by norm_num : (0 : ℚ) < 2 ^ 2)]
  have hl : ((4 * (((a : ℤ) - p) ^ 2 + ((b : ℤ) - p) ^ 2 +
        ((c : ℤ) - q) ^ 2) : ℤ) : ℚ) =
      (((a : ℚ) - p) ^ 2 + ((b : ℚ) - p) ^ 2 + ((c : ℚ) - q) ^ 2) * 2 ^ 2 := by
    push_cast
    ring
  have hr : ((((M : ℤ) ^ 2 : ℤ)) : ℚ) = ((M : ℚ)) ^ 2 := by
    push_cast
    ring
  rw [← hl, ← hr]
  exact Int.cast_le

theorem make_sphere_eq_insideX (kxy kz a b c : ℕ) :
    make_sphere (((7 * kxy : ℕ) : ℚ) / 2) ((7 * kxy / 2 : ℕ) : ℚ)
      ((7 * kxy / 2 : ℕ) : ℚ) ((7 * kz / 2 : ℕ) : ℚ) a b c =
      insideX kxy kz a b c := by
  unfold make_sphere insideX
  rw [decide_eq_decide]
  exact sphere_test_cast (7 * kxy) (7 * kxy / 2) (7 * kz / 2) a b c

theorem kernel_eq_sphereCountX (c : BallFilterConfig) (x y z : ℕ) :
    c.kernel x y z =
      ((sphereCountX c.ball_xy_size c.ball_z_size x y z : ℕ) : ℚ) / 343 := by
  unfold BallFilterConfig.kernel bin_mean_3d sphereCountX
    BallFilterConfig.upscale_factor
  simp only [make_sphere_eq_insideX]
  push_cast
  norm_num

/-- Total kernel mass as an integer numerator over `343`. -/
def kernelMassX (kxy kz : ℕ) : ℕ :=
  ∑ x ∈ Finset.range kxy, ∑ y ∈ Finset.range kxy, ∑ z ∈ Finset.range kz,
    sphereCountX kxy kz x y z

theorem overlap_threshold_eq_X (c : BallFilterConfig) :
    c.overlap_threshold =
      c.overlap_fraction *
        (((kernelMassX c.ball_xy_size c.ball_z_size : ℕ) : ℚ) / 343) := by
  unfold BallFilterConfig.overlap_threshold kernelMassX
  simp only [kernel_eq_sphereCountX]
  push_cast
  simp only [← Finset.mul_sum, ← Finset.sum_div]

theorem cubeSlotSum_eq_X (w h : ℕ) (cube : ℕ → ℕ → ℕ → ℕ) (T : ℕ)
    (kern : ℕ → ℕ → ℕ → ℚ) (K : ℕ → ℕ → ℕ → ℤ) (D : ℤ) (z : ℕ)
    (hk : ∀ x < w, ∀ y < h, kern x y z = ((K x y z : ℤ) : ℚ) / (D : ℚ)) :
    cubeSlotSum w h cube T kern z =
      ((cubeSlotSumX w h cube T K z : ℤ) : ℚ) / (D : ℚ) := by
  unfold cubeSlotSum cubeSlotSumX
  push_cast
  rw [Finset.sum_div]
  refine Finset.sum_congr rfl fun y hy => ?_
  rw [Finset.sum_div]
  refine Finset.sum_congr rfl fun x hx => ?_
  split_ifs with hc
  · exact hk x (Finset.mem_range.mp hx) y (Finset.mem_range.mp hy)
  · rw [zero_div]

theorem cubeLoop_eq_X (middle : ℕ) (tn td D : ℤ) (hD : 0 < D) (htd : 0 < td)
    (thr : ℚ) (hthr : thr = (tn : ℚ) / (td : ℚ)) (slotQ : ℕ → ℚ)
    (slotX : ℕ → ℤ) (zs : List ℕ)
    (hs : ∀ z ∈ zs, slotQ z = ((slotX z : ℤ) : ℚ) / (D : ℚ)) (accX : ℤ) :
    cubeLoop middle thr slotQ zs (((accX : ℤ) : ℚ) / (D : ℚ)) =
      cubeLoopX middle tn td D slotX zs accX := by
  have hDq : (0 : ℚ) < (D : ℚ) := by exact_mod_cast hD
  have htdq : (0 : ℚ) < (td : ℚ) := by exact_mod_cast htd
  induction zs generalizing accX with
  | nil =>
    unfold cubeLoop cubeLoopX
    rw [decide_eq_decide, hthr, div_lt_div_iff₀ htdq hDq]
    constructor <;> intro h <;> exact_mod_cast h
  | cons z zs ih =>
    unfold cubeLoop cubeLoopX
    have hcond : ((accX : ℚ) / (D : ℚ) < thr * 0.4) ↔
        (accX * (5 * td) < 2 * (tn * D)) := by
      have h04 : (0.4 : ℚ) = 2 / 5 := by norm_num
      have key : ((accX : ℚ) / (D : ℚ) < thr * 0.4) ↔
          ((accX : ℚ) * (5 * (td : ℚ)) < 2 * (tn : ℚ) * (D : ℚ)) := by
        rw [hthr,
          show (tn : ℚ) / (td : ℚ) * 0.4 = 2 * (tn : ℚ) / (5 * (td : ℚ)) by
            rw [h04]; ring,
          div_lt_div_iff₀ hDq (by positivity)]
      rw [key]
      constructor
      · intro h
        have h' : accX * (5 * td) < 2 * tn * D := by exact_mod_cast h
        linarith
      · intro h
        have h' : accX * (5 * td) < 2 * tn * D := by linarith
        exact_mod_cast h'
    simp only [hcond]
    split_ifs with hif
    · rfl
    · rw [hs z (List.mem_cons_self z zs), div_add_div_same,
        show ((accX : ℚ) + ((slotX z : ℤ) : ℚ)) = (((accX + slotX z : ℤ)) : ℚ) by
          push_cast
          ring]
      exact ih (fun u hu => hs u (List.mem_cons_of_mem z hu)) (accX + slotX z)

theorem cube_overlaps_eq_X (w h d : ℕ) (cube : ℕ → ℕ → ℕ → ℕ) (T : ℕ)
    (kern : ℕ → ℕ → ℕ → ℚ) (K : ℕ → ℕ → ℕ → ℤ) (tn td D : ℤ) (hD : 0 < D)
    (htd : 0 < td) (thr : ℚ) (hthr : thr = (tn : ℚ) / (td : ℚ))
    (hk : ∀ x < w, ∀ y < h, ∀ z < d,
        kern x y z = ((K x y z : ℤ) : ℚ) / (D : ℚ)) :
    _cube_overlaps w h d cube thr T kern = cubeOverlapsX w h d cube tn td D T K := by
  unfold _cube_overlaps cubeOverlapsX
  rw [show (0 : ℚ) = (((0 : ℤ)) : ℚ) / (D : ℚ) by simp]
  exact cubeLoop_eq_X (d / 2 + 1) tn td D hD htd thr hthr _ _ (List.range d)
    (fun z hz => cubeSlotSum_eq_X w h cube T kern K D z
      (fun x hx y hy => hk x hx y hy z (List.mem_range.mp hz))) 0

theorem walkStepOn_eq_X (tsw tsh : ℕ) (tiles : TileArr) (pw ph depth : ℕ)
    (kxy r mid : ℕ) (thr : ℚ) (kern : ℕ → ℕ → ℕ → ℚ) (T SOMA : ℕ)
    (K : ℕ → ℕ → ℕ → ℤ) (tn td D : ℤ) (hD : 0 < D) (htd : 0 < td)
    (hthr : thr = (tn : ℚ) / (td : ℚ))
    (hk : ∀ x < kxy, ∀ y < kxy, ∀ z < depth,
        kern x y z = ((K x y z : ℤ) : ℚ) / (D : ℚ))
    (readV vol : Volume) (y x : ℕ) :
    walkStepOn tsw tsh tiles pw ph depth kxy r mid thr kern T SOMA readV vol y x =
      walkStepOnX tsw tsh tiles pw ph depth kxy r mid tn td D K T SOMA
        readV vol y x := by
  unfold walkStepOn walkStepOnX
  rw [cube_overlaps_eq_X (min (x + kxy) pw - x) (min (y + kxy) ph - y) depth
    _ T kern K tn td D hD htd thr hthr ?_]
  intro a ha b hb z hz
  exact hk a (lt_of_lt_of_le ha (by omega)) b (lt_of_lt_of_le hb (by omega)) z hz

theorem walk_eq_X (mh mw tsw tsh : ℕ) (tiles : TileArr) (pw ph depth : ℕ)
    (vol : Volume) (kxy : ℕ) (kern : ℕ → ℕ → ℕ → ℚ) (r mid : ℕ) (thr : ℚ)
    (T SOMA : ℕ) (K : ℕ → ℕ → ℕ → ℤ) (tn td D : ℤ) (hD : 0 < D) (htd : 0 < td)
    (hthr : thr = (tn : ℚ) / (td : ℚ))
    (hk : ∀ x < kxy, ∀ y < kxy, ∀ z < depth,
        kern x y z = ((K x y z : ℤ) : ℚ) / (D : ℚ)) :
    _walk mh mw tsw tsh tiles pw ph depth vol kxy kern r mid thr T SOMA =
      _walkX mh mw tsw tsh tiles pw ph depth vol kxy K r mid tn td D T SOMA := by
  unfold _walk _walkX
  simp only [walkStepOn_eq_X tsw tsh tiles pw ph depth kxy r mid thr kern T SOMA
    K tn td D hD htd hthr hk]

theorem walkFrozen_eq_X (mh mw tsw tsh : ℕ) (tiles : TileArr) (pw ph depth : ℕ)
    (vol : Volume) (kxy : ℕ) (kern : ℕ → ℕ → ℕ → ℚ) (r mid : ℕ) (thr : ℚ)
    (T SOMA : ℕ) (K : ℕ → ℕ → ℕ → ℤ) (tn td D : ℤ) (hD : 0 < D) (htd : 0 < td)
    (hthr : thr = (tn : ℚ) / (td : ℚ))
    (hk : ∀ x < kxy, ∀ y < kxy, ∀ z < depth,
        kern x y z = ((K x y z : ℤ) : ℚ) / (D : ℚ)) :
    _walkFrozen mh mw tsw tsh tiles pw ph depth vol kxy kern r mid thr T SOMA =
      _walkFrozenX mh mw tsw tsh tiles pw ph depth vol kxy K r mid tn td D
        T SOMA := by
  unfold _walkFrozen _walkFrozenX
  simp only [walkStepOn_eq_X tsw tsh tiles pw ph depth kxy r mid thr kern T SOMA
    K tn td D hD htd hthr hk]

theorem walkStepCheckedOn_eq_X (tsw tsh : ℕ) (tiles : TileArr) (tx ty : ℕ)
    (pw ph depth : ℕ) (kxy r mid : ℕ) (thr : ℚ) (kern : ℕ → ℕ → ℕ → ℚ)
    (T SOMA : ℕ) (K : ℕ → ℕ → ℕ → ℤ) (tn td D : ℤ) (hD : 0 < D) (htd : 0 < td)
    (hthr : thr = (tn : ℚ) / (td : ℚ))
    (hk : ∀ x < kxy, ∀ y < kxy, ∀ z < depth,
        kern x y z = ((K x y z : ℤ) : ℚ) / (D : ℚ))
    (readV vol : Volume) (y x : ℕ) :
    walkStepCheckedOn tsw tsh tiles tx ty pw ph depth kxy r mid thr kern T SOMA
        readV vol y x =
      walkStepCheckedOnX tsw tsh tiles tx ty pw ph depth kxy r mid tn td D K
        T SOMA readV vol y x := by
  unfold walkStepCheckedOn walkStepCheckedOnX
  rw [cube_overlaps_eq_X (min (x + kxy) pw - x) (min (y + kxy) ph - y) depth
    _ T kern K tn td D hD htd thr hthr ?_]
  intro a ha b hb z hz
  exact hk a (lt_of_lt_of_le ha (by omega)) b (lt_of_lt_of_le hb (by omega)) z hz

theorem walkChecked_eq_X (mh mw tsw tsh : ℕ) (tiles : TileArr) (tx ty : ℕ)
    (pw ph depth : ℕ) (vol : Volume) (kxy : ℕ) (kern : ℕ → ℕ → ℕ → ℚ)
    (r mid : ℕ) (thr : ℚ) (T SOMA : ℕ) (K : ℕ → ℕ → ℕ → ℤ) (tn td D : ℤ)
    (hD : 0 < D) (htd : 0 < td) (hthr : thr = (tn : ℚ) / (td : ℚ))
    (hk : ∀ x < kxy, ∀ y < kxy, ∀ z < depth,
        kern x y z = ((K x y z : ℤ) : ℚ) / (D : ℚ)) :
    _walkChecked mh mw tsw tsh tiles tx ty pw ph depth vol kxy kern r mid thr
        T SOMA =
      _walkCheckedX mh mw tsw tsh tiles tx ty pw ph depth vol kxy K r mid
        tn td D T SOMA := by
  unfold _walkChecked _walkCheckedX
  simp only [walkStepCheckedOn_eq_X tsw tsh tiles tx ty pw ph depth kxy r mid
    thr kern T SOMA K tn td D hD htd hthr hk]

/-! ## Characterisation of the `_cube_overlaps` loop -/

/-- The weighted overlap score described by the spec: the sum, over every
voxel of the cube whose intensity is at least `THRESHOLD_VALUE`, of the kernel
weight at the same relative offset. -/
def overlapScore (w h d : ℕ) (cube : ℕ → ℕ → ℕ → ℕ) (THRESHOLD_VALUE : ℕ)
    (kernel : ℕ → ℕ → ℕ → ℚ) : ℚ :=
  ∑ z ∈ Finset.range d, cubeSlotSum w h cube THRESHOLD_VALUE kernel z

/-- The part of the overlap score accumulated strictly before the z-slot
`⌊d/2⌋ + 1` at which the early-exit test fires. -/
def overlapScoreBelowMiddle (w h d : ℕ) (cube : ℕ → ℕ → ℕ → ℕ)
    (THRESHOLD_VALUE : ℕ) (kernel : ℕ → ℕ → ℕ → ℚ) : ℚ :=
  ∑ z ∈ Finset.range (d / 2 + 1), cubeSlotSum w h cube THRESHOLD_VALUE kernel z

theorem list_range_map_sum (n : ℕ) (f : ℕ → ℚ) :
    (((List.range n).map f).sum) = ∑ i ∈ Finset.range n, f i := by
  induction n with
  | zero => simp
  | succ n ih => rw [List.range_succ, Finset.sum_range_succ, List.map_append,
      List.sum_append, ih, List.map_singleton, List.sum_singleton]

theorem cubeLoop_no_middle (middle : ℕ) (thr : ℚ) (slot : ℕ → ℚ)
    (zs : List ℕ) (hm : middle ∉ zs) (acc : ℚ) :
    cubeLoop middle thr slot zs acc =
      decide (thr < acc + ((zs.map slot).sum)) := by
  induction zs generalizing acc with
  | nil => simp [cubeLoop]
  | cons z zs ih =>
    unfold cubeLoop
    rw [if_neg (by
      rintro ⟨rfl, -⟩
      exact hm (List.mem_cons_self z zs))]
    rw [ih (fun h => hm (List.mem_cons_of_mem z h)) (acc + slot z),
      List.map_cons, List.sum_cons]
    ring_nf

theorem cubeLoop_append (middle : ℕ) (thr : ℚ) (slot : ℕ → ℚ)
    (l1 l2 : List ℕ) (hm : middle ∉ l1) (acc : ℚ) :
    cubeLoop middle thr slot (l1 ++ l2) acc =
      cubeLoop middle thr slot l2 (acc + ((l1.map slot).sum)) := by
  induction l1 generalizing acc with
  | nil => simp
  | cons z l1 ih =>
    rw [List.cons_append]
    simp only [cubeLoop]
    rw [if_neg (by
      rintro ⟨rfl, -⟩
      exact hm (List.mem_cons_self z l1))]
    rw [ih (fun h => hm (List.mem_cons_of_mem z h)) (acc + slot z),
      List.map_cons, List.sum_cons, add_assoc]

theorem range_split_at (m d : ℕ) (h : m < d) :
    List.range d =
      List.range m ++ m :: (List.range (d - m - 1)).map (fun i => m + 1 + i) := by
  conv_lhs => rw [show d = m + (d - m) by omega]
  rw [List.range_add]
  congr 1
  rw [show d - m = (d - m - 1) + 1 by omega, List.range_succ_eq_map]
  simp only [List.map_cons, List.map_map, Nat.add_zero]
  congr 1
  refine List.map_congr_left fun i _ => ?_
  simp only [Function.comp_apply]
  omega

/-- When the early-exit test does not fire (either the middle index lies past
the z-range, or the accumulated score at the middle is not below
`0.4 * overlap_threshold`), `_cube_overlaps` decides exactly
`overlapScore > overlap_threshold`. -/
theorem cube_overlaps_eq_score (w h d : ℕ) (cube : ℕ → ℕ → ℕ → ℕ) (thr : ℚ)
    (T : ℕ) (kern : ℕ → ℕ → ℕ → ℚ)
    (hne : ¬(d / 2 + 1 < d ∧
      overlapScoreBelowMiddle w h d cube T kern < thr * 0.4)) :
    _cube_overlaps w h d cube thr T kern =
      decide (thr < overlapScore w h d cube T kern) := by
  unfold _cube_overlaps overlapScore
  by_cases hm : d / 2 + 1 < d
  · have hp : ¬ overlapScoreBelowMiddle w h d cube T kern < thr * 0.4 :=
      fun hc => hne ⟨hm, hc⟩
    rw [range_split_at (d / 2 + 1) d hm,
      cubeLoop_append (d / 2 + 1) thr _ _ _ (by
        intro hmem
        exact absurd (List.mem_range.mp hmem) (by omega)) 0]
    have hacc : 0 + ((List.range (d / 2 + 1)).map
        (cubeSlotSum w h cube T kern)).sum =
        overlapScoreBelowMiddle w h d cube T kern := by
      rw [zero_add, list_range_map_sum]
      rfl
    simp only [cubeLoop]
    rw [if_neg (by
      rintro ⟨-, hlt⟩
      rw [hacc] at hlt
      exact hp hlt)]
    have hnotin : d / 2 + 1 ∉
        (List.range (d - (d / 2 + 1) - 1)).map (fun i => d / 2 + 1 + 1 + i) := by
      intro hmem
      obtain ⟨u, -, hu⟩ := List.mem_map.mp hmem
      omega
    rw [cubeLoop_no_middle _ thr _ _ hnotin]
    have htot : 0 + ((List.range (d / 2 + 1)).map
          (cubeSlotSum w h cube T kern)).sum +
          cubeSlotSum w h cube T kern (d / 2 + 1) +
          (((List.range (d - (d / 2 + 1) - 1)).map
            (fun i => d / 2 + 1 + 1 + i)).map (cubeSlotSum w h cube T kern)).sum =
        ∑ z ∈ Finset.range d, cubeSlotSum w h cube T kern z := by
      rw [← list_range_map_sum d (cubeSlotSum w h cube T kern),
        range_split_at (d / 2 + 1) d hm]
      simp only [List.map_append, List.sum_append, List.map_cons,
        List.sum_cons]
      ring
    rw [htot]
  · have hnotin : d / 2 + 1 ∉ List.range d := by
      simp only [List.mem_range]
      omega
    rw [cubeLoop_no_middle _ thr _ _ hnotin 0, zero_add,
      list_range_map_sum]

/-- If the score accumulated strictly before z-slot `⌊d/2⌋ + 1` is below
`0.4 * overlap_threshold` (and that slot exists), `_cube_overlaps` returns
`false` by the early exit. -/
theorem cube_overlaps_early (w h d : ℕ) (cube : ℕ → ℕ → ℕ → ℕ) (thr : ℚ)
    (T : ℕ) (kern : ℕ → ℕ → ℕ → ℚ) (hm : d / 2 + 1 < d)
    (hp : overlapScoreBelowMiddle w h d cube T kern < thr * 0.4) :
    _cube_overlaps w h d cube thr T kern = false := by
  unfold _cube_overlaps
  rw [range_split_at (d / 2 + 1) d hm,
    cubeLoop_append (d / 2 + 1) thr _ _ _ (by
      intro hmem
      exact absurd (List.mem_range.mp hmem) (by omega)) 0]
  have hacc : 0 + ((List.range (d / 2 + 1)).map
      (cubeSlotSum w h cube T kern)).sum =
      overlapScoreBelowMiddle w h d cube T kern := by
    rw [zero_add, list_range_map_sum]
    rfl
  simp only [cubeLoop]
  rw [if_pos ⟨by trivial, by rw [hacc]; exact hp⟩]

/-- `_cube_overlaps` only reads the cube within the given z-range (and the
result only depends on those entries). -/
theorem cube_overlaps_congr (w h d : ℕ) (cubeA cubeB : ℕ → ℕ → ℕ → ℕ)
    (thr : ℚ) (T : ℕ) (kern : ℕ → ℕ → ℕ → ℚ)
    (hc : ∀ i j z, z < d → cubeA i j z = cubeB i j z) :
    _cube_overlaps w h d cubeA thr T kern =
      _cube_overlaps w h d cubeB thr T kern := by
  unfold _cube_overlaps
  have hslot : ∀ z < d, cubeSlotSum w h cubeA T kern z =
      cubeSlotSum w h cubeB T kern z := by
    intro z hz
    unfold cubeSlotSum
    refine Finset.sum_congr rfl fun y _ => Finset.sum_congr rfl fun x _ => ?_
    rw [hc x y z hz]
  have : ∀ (zs : List ℕ), (∀ z ∈ zs, z < d) → ∀ acc : ℚ,
      cubeLoop (d / 2 + 1) thr (cubeSlotSum w h cubeA T kern) zs acc =
        cubeLoop (d / 2 + 1) thr (cubeSlotSum w h cubeB T kern) zs acc := by
    intro zs
    induction zs with
    | nil => intro _ acc; rfl
    | cons z zs ih =>
      intro hmem acc
      simp only [cubeLoop]
      rw [hslot z (hmem z (List.mem_cons_self z zs))]
      split_ifs with hif
      · rfl
      · exact ih (fun u hu => hmem u (List.mem_cons_of_mem z hu)) _
  exact this (List.range d) (fun z hz => List.mem_range.mp hz) 0

/-! ## Frame and congruence lemmas for the `_walk` scan -/

/-- Each candidate step either leaves a voxel unchanged, or sets it to
`SOMA_CENTRE_VALUE` at a position in the middle z-slot whose tile passed the
tile gate. -/
theorem walkStepOn_frame (tsw tsh : ℕ) (tiles : TileArr) (pw ph depth : ℕ)
    (kxy r mid : ℕ) (thr : ℚ) (kern : ℕ → ℕ → ℕ → ℚ) (T SOMA : ℕ)
    (readV vol : Volume) (y x a b k : ℕ) :
    walkStepOn tsw tsh tiles pw ph depth kxy r mid thr kern T SOMA readV vol
        y x a b k = vol a b k ∨
      (k = mid ∧
        walkStepOn tsw tsh tiles pw ph depth kxy r mid thr kern T SOMA readV
          vol y x a b k = SOMA ∧
        _is_tile_to_check a b mid tsw tsh tiles = true) := by
  unfold walkStepOn
  split_ifs with htile hcube
  · by_cases hp : a = x + r ∧ b = y + r ∧ k = mid
    · refine Or.inr ⟨hp.2.2, ?_, ?_⟩
      · simp only [if_pos hp]
      · rw [hp.1, hp.2.1]
        exact htile
    · simp only [if_neg hp]
      exact Or.inl (by trivial)
  · exact Or.inl rfl
  · exact Or.inl rfl

/-- Fold form of `walkStepOn_frame` over the inner (x) candidate list. -/
theorem walkRow_frame (tsw tsh : ℕ) (tiles : TileArr) (pw ph depth : ℕ)
    (kxy r mid : ℕ) (thr : ℚ) (kern : ℕ → ℕ → ℕ → ℚ) (T SOMA : ℕ) (y : ℕ)
    (xs : List ℕ) (vol : Volume) (a b k : ℕ) :
    (xs.foldl
        (fun w x => walkStepOn tsw tsh tiles pw ph depth kxy r mid thr kern
          T SOMA w w y x) vol) a b k = vol a b k ∨
      (k = mid ∧
        (xs.foldl
          (fun w x => walkStepOn tsw tsh tiles pw ph depth kxy r mid thr kern
            T SOMA w w y x) vol) a b k = SOMA ∧
        _is_tile_to_check a b mid tsw tsh tiles = true) := by
  induction xs generalizing vol with
  | nil => exact Or.inl rfl
  | cons x xs ih =>
    rw [List.foldl_cons]
    rcases ih (walkStepOn tsw tsh tiles pw ph depth kxy r mid thr kern T SOMA
        vol vol y x) with hsame | hmark
    · rcases walkStepOn_frame tsw tsh tiles pw ph depth kxy r mid thr kern
          T SOMA vol vol y x a b k with hs | hm
      · exact Or.inl (hsame.trans hs)
      · exact Or.inr ⟨hm.1, hsame.trans hm.2.1, hm.2.2⟩
    · exact Or.inr hmark

/-- Fold form of `walkStepOn_frame` over the whole scan: `_walk` changes a
voxel only by writing `SOMA_CENTRE_VALUE` at the middle z-slot of a
tile-gated position. -/
theorem walk_frame (mh mw tsw tsh : ℕ) (tiles : TileArr) (pw ph depth : ℕ)
    (vol : Volume) (kxy : ℕ) (kern : ℕ → ℕ → ℕ → ℚ) (r mid : ℕ) (thr : ℚ)
    (T SOMA : ℕ) (a b k : ℕ) :
    _walk mh mw tsw tsh tiles pw ph depth vol kxy kern r mid thr T SOMA
        a b k = vol a b k ∨
      (k = mid ∧
        _walk mh mw tsw tsh tiles pw ph depth vol kxy kern r mid thr T SOMA
          a b k = SOMA ∧
        _is_tile_to_check a b mid tsw tsh tiles = true) := by
  unfold _walk
  generalize List.range mh = ys
  induction ys generalizing vol with
  | nil => exact Or.inl rfl
  | cons y ys ih =>
    rw [List.foldl_cons]
    rcases ih ((List.range mw).foldl
        (fun w x => walkStepOn tsw tsh tiles pw ph depth kxy r mid thr kern
          T SOMA w w y x) vol) with hsame | hmark
    · rcases walkRow_frame tsw tsh tiles pw ph depth kxy r mid thr kern T SOMA
          y (List.range mw) vol a b k with hs | hm
      · exact Or.inl (hsame.trans hs)
      · exact Or.inr ⟨hm.1, hsame.trans hm.2.1, hm.2.2⟩
    · exact Or.inr hmark

/-- The candidate step only depends on (and only constrains) the tile mask at
the middle z-slot and the volume within the z-range `[0, depth)`. -/
theorem walkStepOn_agree (tsw tsh : ℕ) (tilesA tilesB : TileArr)
    (pw ph depth : ℕ) (kxy r mid : ℕ) (thr : ℚ) (kern : ℕ → ℕ → ℕ → ℚ)
    (T SOMA : ℕ) (readA readB volA volB : Volume) (y x : ℕ)
    (ht : ∀ p q, tilesA p q mid = tilesB p q mid)
    (hr : ∀ p q u, u < depth → readA p q u = readB p q u)
    (hv : ∀ p q u, u < depth → volA p q u = volB p q u) :
    ∀ a b k, k < depth →
      walkStepOn tsw tsh tilesA pw ph depth kxy r mid thr kern T SOMA readA
          volA y x a b k =
        walkStepOn tsw tsh tilesB pw ph depth kxy r mid thr kern T SOMA readB
          volB y x a b k := by
  intro a b k hk
  unfold walkStepOn
  have htile : _is_tile_to_check (x + r) (y + r) mid tsw tsh tilesA =
      _is_tile_to_check (x + r) (y + r) mid tsw tsh tilesB := by
    unfold _is_tile_to_check
    exact ht _ _
  have hcube : _cube_overlaps (min (x + kxy) pw - x) (min (y + kxy) ph - y)
      depth (fun i j u => readA (x + i) (y + j) u) thr T kern =
      _cube_overlaps (min (x + kxy) pw - x) (min (y + kxy) ph - y) depth
        (fun i j u => readB (x + i) (y + j) u) thr T kern :=
    cube_overlaps_congr _ _ _ _ _ _ _ _ (fun i j u hu => hr _ _ u hu)
  rw [htile, hcube]
  split_ifs with h1 h2
  · by_cases hp : a = x + r ∧ b = y + r ∧ k = mid
    · simp only [if_pos hp]
    · simp only [if_neg hp]
      exact hv a b k hk
  · exact hv a b k hk
  · exact hv a b k hk

/-- Row-fold form of `walkStepOn_agree`. -/
theorem walkRow_agree (tsw tsh : ℕ) (tilesA tilesB : TileArr)
    (pw ph depth : ℕ) (kxy r mid : ℕ) (thr : ℚ) (kern : ℕ → ℕ → ℕ → ℚ)
    (T SOMA : ℕ) (y : ℕ) (xs : List ℕ)
    (ht : ∀ p q, tilesA p q mid = tilesB p q mid) :
    ∀ (volA volB : Volume), (∀ p q u, u < depth → volA p q u = volB p q u) →
      ∀ a b k, k < depth →
        (xs.foldl (fun w x => walkStepOn tsw tsh tilesA pw ph depth kxy r mid
            thr kern T SOMA w w y x) volA) a b k =
          (xs.foldl (fun w x => walkStepOn tsw tsh tilesB pw ph depth kxy r mid
            thr kern T SOMA w w y x) volB) a b k := by
  induction xs with
  | nil => exact fun volA volB hv => hv
  | cons x xs ih =>
    intro volA volB hv a b k hk
    rw [List.foldl_cons, List.foldl_cons]
    exact ih _ _
      (walkStepOn_agree tsw tsh tilesA tilesB pw ph depth kxy r mid thr kern
        T SOMA volA volB volA volB y x ht hv hv) a b k hk

/-- The whole scan only depends on the tile mask at the middle z-slot and on
the volume within the z-range `[0, depth)`, and two runs on data agreeing
there stay equal within that range. -/
theorem walk_agree (mh mw tsw tsh : ℕ) (tilesA tilesB : TileArr)
    (pw ph depth : ℕ) (volA volB : Volume) (kxy : ℕ)
    (kern : ℕ → ℕ → ℕ → ℚ) (r mid : ℕ) (thr : ℚ) (T SOMA : ℕ)
    (ht : ∀ p q, tilesA p q mid = tilesB p q mid)
    (hv : ∀ p q u, u < depth → volA p q u = volB p q u) :
    ∀ a b k, k < depth →
      _walk mh mw tsw tsh tilesA pw ph depth volA kxy kern r mid thr T SOMA
          a b k =
        _walk mh mw tsw tsh tilesB pw ph depth volB kxy kern r mid thr T SOMA
          a b k := by
  unfold _walk
  generalize List.range mh = ys
  induction ys generalizing volA volB with
  | nil => exact fun a b k hk => hv a b k hk
  | cons y ys ih =>
    intro a b k hk
    rw [List.foldl_cons, List.foldl_cons]
    exact ih _ _
      (walkRow_agree tsw tsh tilesA tilesB pw ph depth kxy r mid thr kern
        T SOMA y (List.range mw) ht volA volB hv) a b k hk

/-! ## Ring-buffer invariants of `append` -/

theorem append_of_not_ready (c : BallFilterConfig) (s : BallFilterState)
    (plane : Plane) (mask : MaskPlane) (h : ready c s = false) :
    append c s plane mask =
      { volume := fun x y z =>
          if (z : ℤ) = s.current_z + 1 then plane x y else s.volume x y z
        inside_brain_tiles := fun x y z =>
          if (z : ℤ) = s.current_z + 1 then mask x y
          else s.inside_brain_tiles x y z
        current_z := s.current_z + 1 } := by
  unfold append
  rw [h]
  rfl

theorem append_of_ready (c : BallFilterConfig) (s : BallFilterState)
    (plane : Plane) (mask : MaskPlane) (h : ready c s = true) :
    append c s plane mask =
      { volume := fun x y z =>
          if (z : ℤ) = s.current_z then plane x y
          else s.volume x y ((z + 1) % c.ball_z_size)
        inside_brain_tiles := fun x y z =>
          if (z : ℤ) = s.current_z then mask x y
          else s.inside_brain_tiles x y ((z + 1) % c.ball_z_size)
        current_z := s.current_z } := by
  unfold append
  rw [h]
  rfl

theorem appendSeq_current_z (c : BallFilterConfig) (planes : ℕ → Plane)
    (masks : ℕ → MaskPlane) (v0 : Volume) (t0 : TileArr) (n : ℕ) :
    (appendSeq c planes masks v0 t0 n).current_z =
      ((min n c.ball_z_size : ℕ) : ℤ) - 1 := by
  induction n with
  | zero => simp [appendSeq]
  | succ n ih =>
    unfold appendSeq
    by_cases hr : ready c (appendSeq c planes masks v0 t0 n) = true
    · rw [append_of_ready c _ _ _ hr, ih]
      unfold ready at hr
      rw [ih] at hr
      have := of_decide_eq_true hr
      congr 1
      omega
    · rw [append_of_not_ready c _ _ _ (Bool.not_eq_true _ ▸ hr), ih]
      unfold ready at hr
      rw [ih] at hr
      have := of_decide_eq_false (Bool.not_eq_true _ ▸ hr)
      have h2 : ¬ ((min n c.ball_z_size : ℕ) : ℤ) - 1 =
          (c.ball_z_size : ℤ) - 1 := this
      simp only [BallFilterState.mk.injEq]
      omega

theorem appendSeq_ready (c : BallFilterConfig) (planes : ℕ → Plane)
    (masks : ℕ → MaskPlane) (v0 : Volume) (t0 : TileArr) (n : ℕ) :
    ready c (appendSeq c planes masks v0 t0 n) =
      decide (c.ball_z_size ≤ n) := by
  unfold ready
  rw [appendSeq_current_z, decide_eq_decide]
  omega

/-- Ring-buffer content invariant: every slot `z` up to the insertion index
holds the plane (and mask) appended `min n depth - 1 - z` steps before the
most recent one, i.e. slot `z` holds input number `n - min n depth + z`. -/
theorem appendSeq_slots (c : BallFilterConfig) (planes : ℕ → Plane)
    (masks : ℕ → MaskPlane) (v0 : Volume) (t0 : TileArr) :
    ∀ (n z : ℕ), z < c.ball_z_size →
      (z : ℤ) ≤ (appendSeq c planes masks v0 t0 n).current_z → ∀ (x y : ℕ),
      (appendSeq c planes masks v0 t0 n).volume x y z =
        planes (n - min n c.ball_z_size + z) x y ∧
      (appendSeq c planes masks v0 t0 n).inside_brain_tiles x y z =
        masks (n - min n c.ball_z_size + z) x y := by
  intro n
  induction n with
  | zero =>
    intro z hz hle x y
    rw [appendSeq_current_z] at hle
    simp only [Nat.zero_min, Nat.cast_zero, zero_sub] at hle
    omega
  | succ n ih =>
    intro z hz hle x y
    rw [appendSeq_current_z] at hle
    have hcz := appendSeq_current_z c planes masks v0 t0 n
    by_cases hd : c.ball_z_size ≤ n
    · have hr : ready c (appendSeq c planes masks v0 t0 n) = true := by
        rw [appendSeq_ready]
        exact decide_eq_true hd
      show (append c (appendSeq c planes masks v0 t0 n) (planes n)
            (masks n)).volume x y z = _ ∧
          (append c (appendSeq c planes masks v0 t0 n) (planes n)
            (masks n)).inside_brain_tiles x y z = _
      rw [append_of_ready c _ _ _ hr]
      dsimp only
      by_cases hzt : (z : ℤ) = (appendSeq c planes masks v0 t0 n).current_z
      · rw [if_pos hzt, if_pos hzt]
        rw [hcz] at hzt
        constructor <;> · congr 1; omega
      · rw [if_neg hzt, if_neg hzt]
        rw [hcz] at hzt
        have hz1 : (z + 1) % c.ball_z_size = z + 1 :=
          Nat.mod_eq_of_lt (by omega)
        rw [hz1]
        have hih := ih (z + 1) (by omega) (by rw [hcz]; push_cast; omega) x y
        refine ⟨hih.1.trans ?_, hih.2.trans ?_⟩ <;> · congr 1; omega
    · have hr : ready c (appendSeq c planes masks v0 t0 n) = false := by
        rw [appendSeq_ready]
        exact decide_eq_false (by omega)
      show (append c (appendSeq c planes masks v0 t0 n) (planes n)
            (masks n)).volume x y z = _ ∧
          (append c (appendSeq c planes masks v0 t0 n) (planes n)
            (masks n)).inside_brain_tiles x y z = _
      rw [append_of_not_ready c _ _ _ hr]
      dsimp only
      by_cases hzt : (z : ℤ) =
          (appendSeq c planes masks v0 t0 n).current_z + 1
      · rw [if_pos hzt, if_pos hzt]
        rw [hcz] at hzt
        constructor <;> · congr 1; omega
      · rw [if_neg hzt, if_neg hzt]
        rw [hcz] at hzt
        have hih := ih z hz (by rw [hcz]; omega) x y
        refine ⟨hih.1.trans ?_, hih.2.trans ?_⟩ <;> · congr 1; omega

/-! ## In-bounds behaviour of the checked scan -/

theorem ceilDiv_mul_of_dvd (a b : ℕ) (hb : 0 < b) (hdvd : b ∣ a) :
    BallFilterConfig.ceilDiv a b * b = a := by
  obtain ⟨q, rfl⟩ := hdvd
  unfold BallFilterConfig.ceilDiv
  rcases Nat.eq_zero_or_pos q with rfl | hq
  · rw [Nat.mul_zero, Nat.zero_add, Nat.div_eq_of_lt (by omega), Nat.zero_mul]
  · have hsplit : b * q + b - 1 = (b - 1) + q * b := by
      have : 1 ≤ b := hb
      ring_nf
      omega
    rw [hsplit, Nat.add_mul_div_right _ _ hb, Nat.div_eq_of_lt (by omega)]
    ring

/-- When every access of a candidate step is in bounds, the checked step
succeeds and agrees with the unchecked one. -/
theorem walkStepCheckedOn_some (tsw tsh : ℕ) (tiles : TileArr) (tx ty : ℕ)
    (pw ph depth : ℕ) (kxy r mid : ℕ) (thr : ℚ) (kern : ℕ → ℕ → ℕ → ℚ)
    (T SOMA : ℕ) (readV vol : Volume) (y x : ℕ) (h1 : x + r < pw)
    (h2 : y + r < ph) (h3 : mid < depth) (h4 : (x + r) / tsw < tx)
    (h5 : (y + r) / tsh < ty) :
    walkStepCheckedOn tsw tsh tiles tx ty pw ph depth kxy r mid thr kern
        T SOMA readV vol y x =
      some (walkStepOn tsw tsh tiles pw ph depth kxy r mid thr kern T SOMA
        readV vol y x) := by
  unfold walkStepCheckedOn walkStepOn
  dsimp only
  rw [if_pos ⟨h4, h5, h3⟩]
  by_cases htile : _is_tile_to_check (x + r) (y + r) mid tsw tsh tiles = true
  · rw [if_pos htile, if_pos htile]
    by_cases hcube : _cube_overlaps (min (x + kxy) pw - x)
        (min (y + kxy) ph - y) depth (fun i j k => readV (x + i) (y + j) k)
        thr T kern = true
    · rw [if_pos hcube, if_pos hcube, if_pos ⟨h1, h2, h3⟩]
    · rw [if_neg hcube, if_neg hcube]
  · rw [if_neg htile, if_neg htile]

/-- Row-fold form of `walkStepCheckedOn_some`. -/
theorem walkRowChecked_some (tsw tsh : ℕ) (tiles : TileArr) (tx ty : ℕ)
    (pw ph depth : ℕ) (kxy r mid : ℕ) (thr : ℚ) (kern : ℕ → ℕ → ℕ → ℚ)
    (T SOMA : ℕ) (y : ℕ) (h2 : y + r < ph) (h5 : (y + r) / tsh < ty)
    (h3 : mid < depth) :
    ∀ (xs : List ℕ), (∀ x ∈ xs, x + r < pw ∧ (x + r) / tsw < tx) →
      ∀ v : Volume,
      xs.foldl
          (fun acc x => acc.bind fun w =>
            walkStepCheckedOn tsw tsh tiles tx ty pw ph depth kxy r mid thr
              kern T SOMA w w y x) (some v) =
        some (xs.foldl
          (fun w x => walkStepOn tsw tsh tiles pw ph depth kxy r mid thr kern
            T SOMA w w y x) v) := by
  intro xs
  induction xs with
  | nil => intro _ v; rfl
  | cons x xs ih =>
    intro hmem v
    rw [List.foldl_cons, List.foldl_cons, Option.some_bind,
      walkStepCheckedOn_some tsw tsh tiles tx ty pw ph depth kxy r mid thr
        kern T SOMA v v y x (hmem x (List.mem_cons_self x xs)).1 h2 h3
        (hmem x (List.mem_cons_self x xs)).2 h5]
    exact ih (fun u hu => hmem u (List.mem_cons_of_mem x hu)) _

/-- Full-fold form: when all candidate centres are in bounds, the checked
scan succeeds and agrees with `_walk`. -/
theorem walkChecked_some (mh mw tsw tsh : ℕ) (tiles : TileArr) (tx ty : ℕ)
    (pw ph depth : ℕ) (vol : Volume) (kxy : ℕ) (kern : ℕ → ℕ → ℕ → ℚ)
    (r mid : ℕ) (thr : ℚ) (T SOMA : ℕ) (h3 : mid < depth)
    (hx : ∀ x < mw, x + r < pw ∧ (x + r) / tsw < tx)
    (hy : ∀ y < mh, y + r < ph ∧ (y + r) / tsh < ty) :
    _walkChecked mh mw tsw tsh tiles tx ty pw ph depth vol kxy kern r mid thr
        T SOMA =
      some (_walk mh mw tsw tsh tiles pw ph depth vol kxy kern r mid thr
        T SOMA) := by
  unfold _walkChecked _walk
  have hys : ∀ y ∈ List.range mh, y < mh := fun y hy => List.mem_range.mp hy
  revert hys
  generalize List.range mh = ys
  intro hys
  induction ys generalizing vol with
  | nil => rfl
  | cons y ys ih =>
    rw [List.foldl_cons, List.foldl_cons,
      walkRowChecked_some tsw tsh tiles tx ty pw ph depth kxy r mid thr kern
        T SOMA y (hy y (hys y (List.mem_cons_self y ys))).1
        (hy y (hys y (List.mem_cons_self y ys))).2 h3 (List.range mw)
        (fun x hxm => hx x (List.mem_range.mp hxm)) vol]
    exact ih _ (fun u hu => hys u (List.mem_cons_of_mem y hu))

/-! ## Concrete scenario data

`cfgC1` is the spec scenario (10×10 planes, 3×3×3 kernel, threshold 100,
soma value 255, overlap fraction 1/2, one 10×10 tile). `cfgC4` exhibits the
in-place/frozen divergence, `cfgC9` a non-divisible tile configuration, and
`cfgC7even` an even kernel xy size. The `K…` tables are the integer kernel
numerators (over 343) of the corresponding kernels. -/

def cfgC1 : BallFilterConfig := ⟨10, 10, 3, 3, 1 / 2, 10, 10, 100, 255⟩

def planeC1 : Plane := fun x y =>
  if 3 ≤ x ∧ x ≤ 5 ∧ 3 ≤ y ∧ y ≤ 5 then 150 else 0

def maskC1 : MaskPlane := fun _ _ => true

def volC1 : Volume := fun x y _ => planeC1 x y

def tilesC1 : TileArr := fun _ _ _ => true

def stateC1 (v0 : Volume) (t0 : TileArr) : BallFilterState :=
  appendSeq cfgC1 (fun _ => planeC1) (fun _ => maskC1) v0 t0 3

def KC1 : ℕ → ℕ → ℕ → ℤ := fun x y z =>
  if z = 1 then
    if x = 1 ∧ y = 1 then 343 else if x = 1 ∨ y = 1 then 331 else 178
  else
    if x = 1 ∧ y = 1 then 331 else if x = 1 ∨ y = 1 then 178 else 60

theorem sphereCount_C1 :
    ∀ x < 3, ∀ y < 3, ∀ z < 3,
      ((sphereCountX 3 3 x y z : ℕ) : ℤ) = KC1 x y z := by
  decide

theorem kernelMass_C1 : kernelMassX 3 3 = 4945 := by decide

theorem kernel_C1_eq :
    ∀ x < 3, ∀ y < 3, ∀ z < 3,
      cfgC1.kernel x y z = ((KC1 x y z : ℤ) : ℚ) / ((343 : ℤ) : ℚ) := by
  intro x hx y hy z hz
  rw [kernel_eq_sphereCountX, show cfgC1.ball_xy_size = 3 from rfl,
    show cfgC1.ball_z_size = 3 from rfl, ← sphereCount_C1 x hx y hy z hz]
  push_cast
  norm_num

theorem thr_C1 :
    cfgC1.overlap_threshold = ((4945 : ℤ) : ℚ) / ((686 : ℤ) : ℚ) := by
  rw [overlap_threshold_eq_X, show cfgC1.ball_xy_size = 3 from rfl,
    show cfgC1.ball_z_size = 3 from rfl, kernelMass_C1,
    show cfgC1.overlap_fraction = 1 / 2 from rfl]
  norm_num

def cfgC4 : BallFilterConfig := ⟨6, 6, 3, 1, 1 / 2, 6, 6, 100, 255⟩

def volC4 : Volume := fun x y _ =>
  if (x = 1 ∧ 1 ≤ y ∧ y ≤ 3) ∨ (x = 2 ∧ (y = 1 ∨ y = 3)) ∨
      (x = 4 ∧ 1 ≤ y ∧ y ≤ 3) then 150 else 0

def stateC4 : BallFilterState := ⟨volC4, fun _ _ _ => true, 0⟩

def K31 : ℕ → ℕ → ℕ → ℤ := fun x y _ =>
  if x = 1 ∧ y = 1 then 343 else if x = 1 ∨ y = 1 then 331 else 178

theorem sphereCount_C4 :
    ∀ x < 3, ∀ y < 3, ∀ z < 1,
      ((sphereCountX 3 1 x y z : ℕ) : ℤ) = K31 x y z := by
  decide

theorem kernelMass_C4 : kernelMassX 3 1 = 2379 := by decide

theorem kernel_C4_eq :
    ∀ x < 3, ∀ y < 3, ∀ z < 1,
      cfgC4.kernel x y z = ((K31 x y z : ℤ) : ℚ) / ((343 : ℤ) : ℚ) := by
  intro x hx y hy z hz
  rw [kernel_eq_sphereCountX, show cfgC4.ball_xy_size = 3 from rfl,
    show cfgC4.ball_z_size = 1 from rfl, ← sphereCount_C4 x hx y hy z hz]
  push_cast
  norm_num

theorem thr_C4 :
    cfgC4.overlap_threshold = ((2379 : ℤ) : ℚ) / ((686 : ℤ) : ℚ) := by
  rw [overlap_threshold_eq_X, show cfgC4.ball_xy_size = 3 from rfl,
    show cfgC4.ball_z_size = 1 from rfl, kernelMass_C4,
    show cfgC4.overlap_fraction = 1 / 2 from rfl]
  norm_num

def cfgC9 : BallFilterConfig := ⟨3, 3, 2, 1, 1 / 100, 5, 5, 100, 255⟩

def stateC9 : BallFilterState := ⟨fun _ _ _ => 150, fun _ _ _ => true, 0⟩

def K21 : ℕ → ℕ → ℕ → ℤ := fun x y _ =>
  if x = 0 ∧ y = 0 then 202 else if x = 1 ∧ y = 1 then 293 else 245

theorem sphereCount_C9 :
    ∀ x < 2, ∀ y < 2, ∀ z < 1,
      ((sphereCountX 2 1 x y z : ℕ) : ℤ) = K21 x y z := by
  decide

theorem kernelMass_C9 : kernelMassX 2 1 = 985 := by decide

theorem kernel_C9_eq :
    ∀ x < 2, ∀ y < 2, ∀ z < 1,
      cfgC9.kernel x y z = ((K21 x y z : ℤ) : ℚ) / ((343 : ℤ) : ℚ) := by
  intro x hx y hy z hz
  rw [kernel_eq_sphereCountX, show cfgC9.ball_xy_size = 2 from rfl,
    show cfgC9.ball_z_size = 1 from rfl, ← sphereCount_C9 x hx y hy z hz]
  push_cast
  norm_num

theorem thr_C9 :
    cfgC9.overlap_threshold = ((985 : ℤ) : ℚ) / ((34300 : ℤ) : ℚ) := by
  rw [overlap_threshold_eq_X, show cfgC9.ball_xy_size = 2 from rfl,
    show cfgC9.ball_z_size = 1 from rfl, kernelMass_C9,
    show cfgC9.overlap_fraction = 1 / 100 from rfl]
  norm_num

/-- A configuration with an even kernel xy size (for the symmetry claim). -/
def cfgC7even : BallFilterConfig := ⟨1, 1, 2, 1, 1, 1, 1, 1, 1⟩

/-! ## Reflective symmetry of the kernel for odd xy sizes -/

theorem cast_odd_half (M : ℕ) (hodd : M % 2 = 1) :
    ((M / 2 : ℕ) : ℚ) = ((M : ℚ) - 1) / 2 := by
  obtain ⟨t, ht⟩ : ∃ t, M = 2 * t + 1 := ⟨M / 2, by omega⟩
  subst ht
  rw [show (2 * t + 1) / 2 = t by omega]
  push_cast
  ring

theorem cast_reflect (M a : ℕ) (ha : a < M) :
    ((M - 1 - a : ℕ) : ℚ) = (M : ℚ) - 1 - a := by
  rw [Nat.cast_sub (by omega), Nat.cast_sub (by omega)]
  push_cast
  ring

/-- For an odd extent `M`, the occupancy test is invariant under reflecting
the first coordinate across the grid. -/
theorem make_sphere_reflect_fst (kxy kz : ℕ) (hodd : kxy % 2 = 1) (a b c : ℕ)
    (ha : a < 7 * kxy) :
    make_sphere (((7 * kxy : ℕ) : ℚ) / 2) ((7 * kxy / 2 : ℕ) : ℚ)
        ((7 * kxy / 2 : ℕ) : ℚ) ((7 * kz / 2 : ℕ) : ℚ) (7 * kxy - 1 - a) b c =
      make_sphere (((7 * kxy : ℕ) : ℚ) / 2) ((7 * kxy / 2 : ℕ) : ℚ)
        ((7 * kxy / 2 : ℕ) : ℚ) ((7 * kz / 2 : ℕ) : ℚ) a b c := by
  unfold make_sphere
  rw [decide_eq_decide]
  have hModd : (7 * kxy) % 2 = 1 := by omega
  have hsq : (((7 * kxy - 1 - a : ℕ) : ℚ) - ((7 * kxy / 2 : ℕ) : ℚ)) ^ 2 =
      (((a : ℕ) : ℚ) - ((7 * kxy / 2 : ℕ) : ℚ)) ^ 2 := by
    rw [cast_reflect (7 * kxy) a ha, cast_odd_half (7 * kxy) hModd]
    ring
  rw [hsq]

/-- For an odd extent `M`, the occupancy test is invariant under reflecting
the second coordinate across the grid. -/
theorem make_sphere_reflect_snd (kxy kz : ℕ) (hodd : kxy % 2 = 1) (a b c : ℕ)
    (hb : b < 7 * kxy) :
    make_sphere (((7 * kxy : ℕ) : ℚ) / 2) ((7 * kxy / 2 : ℕ) : ℚ)
        ((7 * kxy / 2 : ℕ) : ℚ) ((7 * kz / 2 : ℕ) : ℚ) a (7 * kxy - 1 - b) c =
      make_sphere (((7 * kxy : ℕ) : ℚ) / 2) ((7 * kxy / 2 : ℕ) : ℚ)
        ((7 * kxy / 2 : ℕ) : ℚ) ((7 * kz / 2 : ℕ) : ℚ) a b c := by
  unfold make_sphere
  rw [decide_eq_decide]
  have hModd : (7 * kxy) % 2 = 1 := by omega
  have hsq : (((7 * kxy - 1 - b : ℕ) : ℚ) - ((7 * kxy / 2 : ℕ) : ℚ)) ^ 2 =
      (((b : ℕ) : ℚ) - ((7 * kxy / 2 : ℕ) : ℚ)) ^ 2 := by
    rw [cast_reflect (7 * kxy) b hb, cast_odd_half (7 * kxy) hModd]
    ring
  rw [hsq]

/-- Reflecting a bin index maps bin sums to bin sums under a pointwise
reflection symmetry of the underlying fine grid. -/
theorem sum_bin_reflect (g : ℕ → ℚ) (m : ℕ)
    (hsym : ∀ u < 7 * m, g (7 * m - 1 - u) = g u) (x : ℕ) (hx : x < m) :
    ∑ i ∈ Finset.range 7, g ((m - 1 - x) * 7 + i) =
      ∑ i ∈ Finset.range 7, g (x * 7 + i) := by
  have step1 : ∑ i ∈ Finset.range 7, g ((m - 1 - x) * 7 + i) =
      ∑ i ∈ Finset.range 7, g (7 * m - 1 - (x * 7 + (6 - i))) := by
    refine Finset.sum_congr rfl fun i hi => ?_
    have hi7 := Finset.mem_range.mp hi
    congr 1
    omega
  have step2 : ∑ i ∈ Finset.range 7, g (7 * m - 1 - (x * 7 + (6 - i))) =
      ∑ i ∈ Finset.range 7, g (x * 7 + (6 - i)) := by
    refine Finset.sum_congr rfl fun i hi => ?_
    have hi7 := Finset.mem_range.mp hi
    exact hsym _ (by omega)
  have step3 : ∑ i ∈ Finset.range 7, g (x * 7 + (6 - i)) =
      ∑ i ∈ Finset.range 7, g (x * 7 + i) := by
    have h := Finset.sum_range_reflect (fun i => g (x * 7 + i)) 7
    rw [← h]
  rw [step1, step2, step3]

/-- For odd `ball_xy_size`, the kernel is reflectively symmetric in `x`. -/
theorem kernel_reflect_x (c : BallFilterConfig)
    (hodd : c.ball_xy_size % 2 = 1) (x y z : ℕ) (hx : x < c.ball_xy_size) :
    c.kernel (c.ball_xy_size - 1 - x) y z = c.kernel x y z := by
  unfold BallFilterConfig.kernel bin_mean_3d BallFilterConfig.upscale_factor
  congr 1
  exact sum_bin_reflect
    (fun a => ∑ j ∈ Finset.range 7, ∑ k ∈ Finset.range 7,
      if make_sphere (((7 * c.ball_xy_size : ℕ) : ℚ) / 2)
          ((7 * c.ball_xy_size / 2 : ℕ) : ℚ) ((7 * c.ball_xy_size / 2 : ℕ) : ℚ)
          ((7 * c.ball_z_size / 2 : ℕ) : ℚ) a (y * 7 + j) (z * 7 + k)
      then (1 : ℚ) else 0)
    c.ball_xy_size
    (fun u hu => by
      refine Finset.sum_congr rfl fun j _ => Finset.sum_congr rfl fun k _ => ?_
      rw [make_sphere_reflect_fst c.ball_xy_size c.ball_z_size hodd u _ _ hu])
    x hx

/-- For odd `ball_xy_size`, the kernel is reflectively symmetric in `y`. -/
theorem kernel_reflect_y (c : BallFilterConfig)
    (hodd : c.ball_xy_size % 2 = 1) (x y z : ℕ) (hy : y < c.ball_xy_size) :
    c.kernel x (c.ball_xy_size - 1 - y) z = c.kernel x y z := by
  unfold BallFilterConfig.kernel bin_mean_3d BallFilterConfig.upscale_factor
  congr 1
  refine Finset.sum_congr rfl fun i _ => ?_
  exact sum_bin_reflect
    (fun a => ∑ k ∈ Finset.range 7,
      if make_sphere (((7 * c.ball_xy_size : ℕ) : ℚ) / 2)
          ((7 * c.ball_xy_size / 2 : ℕ) : ℚ) ((7 * c.ball_xy_size / 2 : ℕ) : ℚ)
          ((7 * c.ball_z_size / 2 : ℕ) : ℚ) (x * 7 + i) a (z * 7 + k)
      then (1 : ℚ) else 0)
    c.ball_xy_size
    (fun u hu => by
      refine Finset.sum_congr rfl fun k _ => ?_
      rw [make_sphere_reflect_snd c.ball_xy_size c.ball_z_size hodd _ u _ hu])
    y hy

/-! ## Claim theorems -/

/-- C2: when the early-exit branch does not trigger, `_cube_overlaps` returns
`true` iff the sum of kernel weights over exactly the voxels whose intensity
is at least the threshold strictly exceeds `overlap_threshold`; and a `true`
overlap test on a tile-gated candidate is what writes `SOMA_CENTRE_VALUE` at
the candidate's centre. -/
theorem claim_C2 :
    (∀ (w h d : ℕ) (cube : ℕ → ℕ → ℕ → ℕ) (thr : ℚ) (T : ℕ)
        (kern : ℕ → ℕ → ℕ → ℚ),
      ¬(d / 2 + 1 < d ∧
          overlapScoreBelowMiddle w h d cube T kern < thr * 0.4) →
        (_cube_overlaps w h d cube thr T kern = true ↔
          thr < overlapScore w h d cube T kern)) ∧
    (∀ (tsw tsh : ℕ) (tiles : TileArr) (pw ph depth kxy r mid : ℕ)
        (thr : ℚ) (kern : ℕ → ℕ → ℕ → ℚ) (T SOMA : ℕ)
        (readV vol : Volume) (y x : ℕ),
      _is_tile_to_check (x + r) (y + r) mid tsw tsh tiles = true →
      _cube_overlaps (min (x + kxy) pw - x) (min (y + kxy) ph - y) depth
          (fun i j k => readV (x + i) (y + j) k) thr T kern = true →
      walkStepOn tsw tsh tiles pw ph depth kxy r mid thr kern T SOMA readV
        vol y x (x + r) (y + r) mid = SOMA) := by
  constructor
  · intro w h d cube thr T kern hne
    rw [cube_overlaps_eq_score w h d cube thr T kern hne]
    exact decide_eq_true_iff
  · intro tsw tsh tiles pw ph depth kxy r mid thr kern T SOMA readV vol y x
      htile hcube
    unfold walkStepOn
    rw [if_pos htile, if_pos hcube, if_pos ⟨rfl, rfl, rfl⟩]

theorem claim_C2_witness :
    (¬((1 : ℕ) / 2 + 1 < 1 ∧
        overlapScoreBelowMiddle 1 1 1 (fun _ _ _ => 0) 1 (fun _ _ _ => 0) <
          1 * 0.4)) ∧
    (_cube_overlaps 1 1 1 (fun _ _ _ => 0) 1 1 (fun _ _ _ => 0) = true ↔
      (1 : ℚ) < overlapScore 1 1 1 (fun _ _ _ => 0) 1 (fun _ _ _ => 0)) := by
  have hne : ¬((1 : ℕ) / 2 + 1 < 1 ∧
      overlapScoreBelowMiddle 1 1 1 (fun _ _ _ => 0) 1 (fun _ _ _ => 0) <
        1 * 0.4) := by
    rintro ⟨hlt, -⟩
    omega
  exact ⟨hne, claim_C2.1 1 1 1 (fun _ _ _ => 0) 1 1 (fun _ _ _ => 0) hne⟩

/-- C3: `_cube_overlaps` scans z-slots in ascending order; exactly upon
reaching slot `⌊d/2⌋ + 1`, if the weight accumulated over the earlier slots
is strictly below `0.4 * overlap_threshold`, it returns `false` without
reading any voxel of the remaining slots (the result is `false` for every
cube agreeing on the slots before the middle). -/
theorem claim_C3 (w h d : ℕ) (cube : ℕ → ℕ → ℕ → ℕ) (thr : ℚ) (T : ℕ)
    (kern : ℕ → ℕ → ℕ → ℚ) (hm : d / 2 + 1 < d)
    (hp : overlapScoreBelowMiddle w h d cube T kern < thr * 0.4) :
    _cube_overlaps w h d cube thr T kern = false ∧
    ∀ cube2 : ℕ → ℕ → ℕ → ℕ,
      (∀ i j z, z < d / 2 + 1 → cube2 i j z = cube i j z) →
      _cube_overlaps w h d cube2 thr T kern = false := by
  refine ⟨cube_overlaps_early w h d cube thr T kern hm hp, fun cube2 hc => ?_⟩
  refine cube_overlaps_early w h d cube2 thr T kern hm ?_
  have heq : overlapScoreBelowMiddle w h d cube2 T kern =
      overlapScoreBelowMiddle w h d cube T kern := by
    unfold overlapScoreBelowMiddle cubeSlotSum
    refine Finset.sum_congr rfl fun z hz => Finset.sum_congr rfl fun y _ =>
      Finset.sum_congr rfl fun x _ => ?_
    rw [hc x y z (Finset.mem_range.mp hz)]
  rw [heq]
  exact hp

theorem claim_C3_witness :
    ((3 : ℕ) / 2 + 1 < 3 ∧
      overlapScoreBelowMiddle 1 1 3 (fun _ _ _ => 0) 0 (fun _ _ _ => 0) <
        1 * 0.4) ∧
    _cube_overlaps 1 1 3 (fun _ _ _ => 0) 1 0 (fun _ _ _ => 0) = false := by
  have hm : (3 : ℕ) / 2 + 1 < 3 := by omega
  have hp : overlapScoreBelowMiddle 1 1 3 (fun _ _ _ => 0) 0
      (fun _ _ _ => 0) < 1 * 0.4 := by
    unfold overlapScoreBelowMiddle cubeSlotSum
    norm_num
  exact ⟨⟨hm, hp⟩,
    (claim_C3 1 1 3 (fun _ _ _ => 0) 1 0 (fun _ _ _ => 0) hm hp).1⟩

/-- C5: after `n ≥ depth` appends with no scan in between, slot `z` of the
intensity buffer holds plane `n - depth + z` (oldest to newest), and the
tile-mask slot at the same z-index holds the corresponding mask. -/
theorem claim_C5 (c : BallFilterConfig) (planes : ℕ → Plane)
    (masks : ℕ → MaskPlane) (v0 : Volume) (t0 : TileArr) (n : ℕ)
    (hn : c.ball_z_size ≤ n) :
    ∀ z < c.ball_z_size, ∀ x y : ℕ,
      (appendSeq c planes masks v0 t0 n).volume x y z =
        planes (n - c.ball_z_size + z) x y ∧
      (appendSeq c planes masks v0 t0 n).inside_brain_tiles x y z =
        masks (n - c.ball_z_size + z) x y := by
  intro z hz x y
  have hih := appendSeq_slots c planes masks v0 t0 n z hz
    (by rw [appendSeq_current_z]; push_cast; omega) x y
  refine ⟨hih.1.trans ?_, hih.2.trans ?_⟩ <;> · congr 1; omega

theorem claim_C5_witness :
    (1 : ℕ) ≤ 1 ∧
    ((appendSeq ⟨1, 1, 1, 1, 1, 1, 1, 1, 1⟩ (fun i _ _ => i)
        (fun i _ _ => decide (i = 0)) (fun _ _ _ => 9) (fun _ _ _ => false)
        1).volume 0 0 0 = (fun i _ _ => i : ℕ → Plane) (1 - 1 + 0) 0 0 ∧
      (appendSeq ⟨1, 1, 1, 1, 1, 1, 1, 1, 1⟩ (fun i _ _ => i)
        (fun i _ _ => decide (i = 0)) (fun _ _ _ => 9) (fun _ _ _ => false)
        1).inside_brain_tiles 0 0 0 =
        (fun i _ _ => decide (i = 0) : ℕ → MaskPlane) (1 - 1 + 0) 0 0) :=
  ⟨le_refl 1,
    claim_C5 ⟨1, 1, 1, 1, 1, 1, 1, 1, 1⟩ (fun i _ _ => i)
      (fun i _ _ => decide (i = 0)) (fun _ _ _ => 9) (fun _ _ _ => false) 1
      (by decide) 0 (by decide) 0 0⟩

/-- C6: a candidate centre whose tile is inactive in the middle z-slot is
never tested nor marked: the scan leaves the volume unchanged there,
whatever the intensities. -/
theorem claim_C6 (c : BallFilterConfig) (s : BallFilterState) (x y : ℕ)
    (htile : _is_tile_to_check (x + c.ball_xy_size / 2)
        (y + c.ball_xy_size / 2) c.middle_z_idx c.tile_step_width
        c.tile_step_height s.inside_brain_tiles = false) :
    (walk c s).volume (x + c.ball_xy_size / 2) (y + c.ball_xy_size / 2)
        c.middle_z_idx =
      s.volume (x + c.ball_xy_size / 2) (y + c.ball_xy_size / 2)
        c.middle_z_idx := by
  rcases walk_frame (c.tilesY * c.tile_step_height - c.ball_xy_size)
      (c.tilesX * c.tile_step_width - c.ball_xy_size) c.tile_step_width
      c.tile_step_height s.inside_brain_tiles c.plane_width c.plane_height
      c.ball_z_size s.volume c.ball_xy_size c.kernel (c.ball_xy_size / 2)
      c.middle_z_idx c.overlap_threshold c.THRESHOLD_VALUE
      c.SOMA_CENTRE_VALUE (x + c.ball_xy_size / 2) (y + c.ball_xy_size / 2)
      c.middle_z_idx with hsame | hmark
  · exact hsame
  · rw [htile] at hmark
    exact absurd hmark.2.2 (by simp)

theorem claim_C6_witness :
    (_is_tile_to_check (0 + (2 : ℕ) / 2) (0 + 2 / 2) 0 2 2
        (fun _ _ _ => false) = false) ∧
    (walk ⟨4, 4, 2, 1, 1, 2, 2, 1, 9⟩
        ⟨fun _ _ _ => 7, fun _ _ _ => false, 0⟩).volume (0 + 2 / 2)
        (0 + 2 / 2) 0 =
      (7 : ℕ) :=
  ⟨rfl, claim_C6 ⟨4, 4, 2, 1, 1, 2, 2, 1, 9⟩
    ⟨fun _ _ _ => 7, fun _ _ _ => false, 0⟩ 0 0 rfl⟩

/-- C8: for depth ≥ 1, `ready` is false for the first `depth - 1` appends and
true from the depth-th append onward, permanently: after `n` appends it
decides exactly `depth ≤ n`. -/
theorem claim_C8 (c : BallFilterConfig) (planes : ℕ → Plane)
    (masks : ℕ → MaskPlane) (v0 : Volume) (t0 : TileArr)
    (hd : 0 < c.ball_z_size) (n : ℕ) :
    ready c (appendSeq c planes masks v0 t0 n) =
      decide (c.ball_z_size ≤ n) :=
  appendSeq_ready c planes masks v0 t0 n

theorem claim_C8_witness :
    (0 : ℕ) < 1 ∧
    ready ⟨1, 1, 1, 1, 1, 1, 1, 1, 1⟩
        (appendSeq ⟨1, 1, 1, 1, 1, 1, 1, 1, 1⟩ (fun _ _ _ => 0)
          (fun _ _ _ => true) (fun _ _ _ => 0) (fun _ _ _ => true) 2) =
      decide ((1 : ℕ) ≤ 2) :=
  ⟨by decide,
    claim_C8 ⟨1, 1, 1, 1, 1, 1, 1, 1, 1⟩ (fun _ _ _ => 0) (fun _ _ _ => true)
      (fun _ _ _ => 0) (fun _ _ _ => true) (by decide) 2⟩

/-- C10: the scan modifies only voxels in the middle z-slot, any modified
voxel is set exactly to `SOMA_CENTRE_VALUE`, and the tile mask and insertion
index are untouched (the kernel and threshold are configuration-derived
constants that the scan cannot change). -/
theorem claim_C10 (c : BallFilterConfig) (s : BallFilterState) :
    (∀ a b k : ℕ,
      (walk c s).volume a b k = s.volume a b k ∨
        (k = c.middle_z_idx ∧
          (walk c s).volume a b k = c.SOMA_CENTRE_VALUE)) ∧
    (walk c s).inside_brain_tiles = s.inside_brain_tiles ∧
    (walk c s).current_z = s.current_z := by
  refine ⟨fun a b k => ?_, rfl, rfl⟩
  rcases walk_frame (c.tilesY * c.tile_step_height - c.ball_xy_size)
      (c.tilesX * c.tile_step_width - c.ball_xy_size) c.tile_step_width
      c.tile_step_height s.inside_brain_tiles c.plane_width c.plane_height
      c.ball_z_size s.volume c.ball_xy_size c.kernel (c.ball_xy_size / 2)
      c.middle_z_idx c.overlap_threshold c.THRESHOLD_VALUE
      c.SOMA_CENTRE_VALUE a b k with hsame | hmark
  · exact Or.inl hsame
  · exact Or.inr ⟨hmark.1, hmark.2.1⟩

theorem claim_C10_witness :
    ((walk cfgC4 stateC4).volume 0 0 0 = stateC4.volume 0 0 0 ∨
      ((0 : ℕ) = cfgC4.middle_z_idx ∧
        (walk cfgC4 stateC4).volume 0 0 0 = cfgC4.SOMA_CENTRE_VALUE)) ∧
    (walk cfgC4 stateC4).inside_brain_tiles = stateC4.inside_brain_tiles :=
  ⟨(claim_C10 cfgC4 stateC4).1 0 0 0, (claim_C10 cfgC4 stateC4).2.1⟩

/-- C7 (counterexample): for an even kernel xy size the built kernel is not
reflectively symmetric in x — with `ball_xy_size = 2`, `ball_z_size = 1` the
entry at `(0,0,0)` differs from the one at `(2-1-0, 0, 0)`. -/
theorem claim_C7_counterexample :
    ¬(cfgC7even.kernel 0 0 0 =
      cfgC7even.kernel (cfgC7even.ball_xy_size - 1 - 0) 0 0) := by
  have h0 : cfgC7even.kernel 0 0 0 = ((K21 0 0 0 : ℤ) : ℚ) / ((343 : ℤ) : ℚ) := by
    rw [kernel_eq_sphereCountX, show cfgC7even.ball_xy_size = 2 from rfl,
      show cfgC7even.ball_z_size = 1 from rfl,
      ← sphereCount_C9 0 (by omega) 0 (by omega) 0 (by omega)]
    push_cast
    norm_num
  have h1 : cfgC7even.kernel 1 0 0 = ((K21 1 0 0 : ℤ) : ℚ) / ((343 : ℤ) : ℚ) := by
    rw [kernel_eq_sphereCountX, show cfgC7even.ball_xy_size = 2 from rfl,
      show cfgC7even.ball_z_size = 1 from rfl,
      ← sphereCount_C9 1 (by omega) 0 (by omega) 0 (by omega)]
    push_cast
    norm_num
  show ¬(cfgC7even.kernel 0 0 0 = cfgC7even.kernel 1 0 0)
  rw [h0, h1]
  norm_num [K21]

/-- C7 (amended): for every configuration whose kernel xy size is odd, the
kernel is reflectively symmetric in x and in y at every in-range index. -/
theorem claim_C7 (c : BallFilterConfig) (hodd : c.ball_xy_size % 2 = 1)
    (x y z : ℕ) (hx : x < c.ball_xy_size) (hy : y < c.ball_xy_size) :
    c.kernel x y z = c.kernel (c.ball_xy_size - 1 - x) y z ∧
    c.kernel x y z = c.kernel x (c.ball_xy_size - 1 - y) z :=
  ⟨(kernel_reflect_x c hodd x y z hx).symm,
    (kernel_reflect_y c hodd x y z hy).symm⟩

theorem claim_C7_witness :
    cfgC1.ball_xy_size % 2 = 1 ∧
    (cfgC1.kernel 0 1 0 = cfgC1.kernel (cfgC1.ball_xy_size - 1 - 0) 1 0 ∧
      cfgC1.kernel 0 1 0 = cfgC1.kernel 0 (cfgC1.ball_xy_size - 1 - 1) 0) :=
  ⟨by decide, claim_C7 cfgC1 (by decide) 0 1 0 (by decide) (by decide)⟩

set_option maxRecDepth 20000 in
/-- C1: in the spec scenario (10×10 planes, 3×3×3 kernel, threshold 100, soma
value 255, overlap fraction 1/2, one always-active 10×10 tile), after
appending three planes that are 150 on `(3..5, 3..5)` and 0 elsewhere,
`ready` is true, and the scan marks `(4,4)` of the middle plane with 255
while every middle-plane position outside the high-intensity block stays 0. -/
theorem claim_C1 (v0 : Volume) (t0 : TileArr) :
    ready cfgC1 (stateC1 v0 t0) = true ∧
    get_middle_plane cfgC1 (walk cfgC1 (stateC1 v0 t0)) 4 4 = 255 ∧
    (∀ x < 10, ∀ y < 10, (x < 3 ∨ 5 < x ∨ y < 3 ∨ 5 < y) →
      get_middle_plane cfgC1 (walk cfgC1 (stateC1 v0 t0)) x y = 0) := by
  have hready : ready cfgC1 (stateC1 v0 t0) = true := by
    rw [stateC1, appendSeq_ready]
    rfl
  have hvol : ∀ p q u, u < 3 → (stateC1 v0 t0).volume p q u = volC1 p q u := by
    intro p q u hu
    exact (appendSeq_slots cfgC1 (fun _ => planeC1) (fun _ => maskC1) v0 t0 3
      u (show u < cfgC1.ball_z_size from hu) (by
        rw [appendSeq_current_z, show cfgC1.ball_z_size = 3 from rfl]
        push_cast
        omega) p q).1
  have htl : ∀ p q,
      (stateC1 v0 t0).inside_brain_tiles p q 1 = tilesC1 p q 1 := by
    intro p q
    exact (appendSeq_slots cfgC1 (fun _ => planeC1) (fun _ => maskC1) v0 t0 3
      1 (show (1 : ℕ) < cfgC1.ball_z_size by decide) (by
        rw [appendSeq_current_z, show cfgC1.ball_z_size = 3 from rfl]
        decide) p q).2
  have hkey : ∀ a b, (walk cfgC1 (stateC1 v0 t0)).volume a b 1 =
      _walkX 7 7 10 10 tilesC1 10 10 3 volC1 3 KC1 1 1 4945 686 343 100 255
        a b 1 := by
    intro a b
    have h1 : (walk cfgC1 (stateC1 v0 t0)).volume a b 1 =
        _walk 7 7 10 10 tilesC1 10 10 3 volC1 3 cfgC1.kernel 1 1
          cfgC1.overlap_threshold 100 255 a b 1 := by
      show _walk 7 7 10 10 (stateC1 v0 t0).inside_brain_tiles 10 10 3
          (stateC1 v0 t0).volume 3 cfgC1.kernel 1 1 cfgC1.overlap_threshold
          100 255 a b 1 = _
      exact walk_agree 7 7 10 10 _ tilesC1 10 10 3 _ volC1 3 cfgC1.kernel 1 1
        cfgC1.overlap_threshold 100 255 htl hvol a b 1 (by omega)
    rw [h1, walk_eq_X 7 7 10 10 tilesC1 10 10 3 volC1 3 cfgC1.kernel 1 1
      cfgC1.overlap_threshold 100 255 KC1 4945 686 343 (by decide) (by decide)
      thr_C1 kernel_C1_eq]
  have hdec :
      _walkX 7 7 10 10 tilesC1 10 10 3 volC1 3 KC1 1 1 4945 686 343 100 255
          4 4 1 = 255 ∧
      (∀ x < 10, ∀ y < 10, (x < 3 ∨ 5 < x ∨ y < 3 ∨ 5 < y) →
        _walkX 7 7 10 10 tilesC1 10 10 3 volC1 3 KC1 1 1 4945 686 343 100 255
          x y 1 = 0) := by decide
  refine ⟨hready, ?_, ?_⟩
  · show (walk cfgC1 (stateC1 v0 t0)).volume 4 4 1 = 255
    rw [hkey 4 4]
    exact hdec.1
  · intro x hx y hy hout
    show (walk cfgC1 (stateC1 v0 t0)).volume x y 1 = 0
    rw [hkey x y]
    exact hdec.2 x hx y hy hout

theorem claim_C1_witness :
    (0 : ℕ) < 10 ∧ (0 < 3 ∨ 5 < 0 ∨ 0 < 3 ∨ 5 < 0) ∧
    get_middle_plane cfgC1
      (walk cfgC1 (stateC1 (fun _ _ _ => 0) (fun _ _ _ => false))) 0 0 = 0 :=
  ⟨by decide, Or.inl (by decide),
    (claim_C1 (fun _ _ _ => 0) (fun _ _ _ => false)).2.2 0 (by decide) 0
      (by decide) (Or.inl (by decide))⟩

set_option maxRecDepth 20000 in
/-- C4: `_walk` iterates candidates y-outer/x-inner against the live,
in-place-mutated volume, and this is observably different from scanning
against a frozen pre-scan snapshot: on `cfgC4`/`stateC4` the live scan marks
centre `(3,2)` (a mark written earlier in the same pass at `(2,2)` feeds its
overlap score, since `SOMA_CENTRE_VALUE ≥ THRESHOLD_VALUE`), while the
frozen-snapshot scan leaves `(3,2)` at its original value 0. -/
theorem claim_C4 :
    (walk cfgC4 stateC4).volume 3 2 0 = 255 ∧
    (walkFrozen cfgC4 stateC4).volume 3 2 0 = 0 := by
  constructor
  · have h1 : (walk cfgC4 stateC4).volume 3 2 0 =
        _walkX 3 3 6 6 (fun _ _ _ => true) 6 6 1 volC4 3 K31 1 0 2379 686 343
          100 255 3 2 0 := by
      show _walk 3 3 6 6 (fun _ _ _ => true) 6 6 1 volC4 3 cfgC4.kernel 1 0
          cfgC4.overlap_threshold 100 255 3 2 0 = _
      rw [walk_eq_X 3 3 6 6 (fun _ _ _ => true) 6 6 1 volC4 3 cfgC4.kernel 1 0
        cfgC4.overlap_threshold 100 255 K31 2379 686 343 (by decide)
        (by decide) thr_C4 kernel_C4_eq]
    rw [h1]
    decide
  · have h2 : (walkFrozen cfgC4 stateC4).volume 3 2 0 =
        _walkFrozenX 3 3 6 6 (fun _ _ _ => true) 6 6 1 volC4 3 K31 1 0 2379
          686 343 100 255 3 2 0 := by
      show _walkFrozen 3 3 6 6 (fun _ _ _ => true) 6 6 1 volC4 3 cfgC4.kernel
          1 0 cfgC4.overlap_threshold 100 255 3 2 0 = _
      rw [walkFrozen_eq_X 3 3 6 6 (fun _ _ _ => true) 6 6 1 volC4 3
        cfgC4.kernel 1 0 cfgC4.overlap_threshold 100 255 K31 2379 686 343
        (by decide) (by decide) thr_C4 kernel_C4_eq]
    rw [h2]
    decide

set_option maxRecDepth 20000 in
/-- C9 (counterexample): with a plane width that is not a multiple of the
tile step (width 3, tile step 5, kernel xy 2), the scan's mark write goes out
of bounds: the bounds-checked scan returns `none`. -/
theorem claim_C9_counterexample : walkChecked cfgC9 stateC9 = none := by
  show _walkChecked 3 3 5 5 (fun _ _ _ => true) 1 1 3 3 1 (fun _ _ _ => 150) 2
      cfgC9.kernel 1 0 cfgC9.overlap_threshold 100 255 = none
  rw [walkChecked_eq_X 3 3 5 5 (fun _ _ _ => true) 1 1 3 3 1
    (fun _ _ _ => 150) 2 cfgC9.kernel 1 0 cfgC9.overlap_threshold 100 255 K21
    985 34300 343 (by decide) (by decide) thr_C9 kernel_C9_eq]
  exact Option.isNone_iff_eq_none.mp (by decide)

/-- C9 (amended): when the tile steps are positive and divide the plane
dimensions (and the depth is positive), every array access of the scan is in
bounds: the bounds-checked scan succeeds and agrees with `walk`. -/
theorem claim_C9 (c : BallFilterConfig) (s : BallFilterState)
    (hdw : c.tile_step_width ∣ c.plane_width)
    (hdh : c.tile_step_height ∣ c.plane_height) (hw : 0 < c.tile_step_width)
    (hh : 0 < c.tile_step_height) (hz : 0 < c.ball_z_size) :
    walkChecked c s = some ((walk c s).volume) := by
  have hcovW : c.tilesX * c.tile_step_width = c.plane_width :=
    ceilDiv_mul_of_dvd c.plane_width c.tile_step_width hw hdw
  have hcovH : c.tilesY * c.tile_step_height = c.plane_height :=
    ceilDiv_mul_of_dvd c.plane_height c.tile_step_height hh hdh
  show _walkChecked (c.tilesY * c.tile_step_height - c.ball_xy_size)
      (c.tilesX * c.tile_step_width - c.ball_xy_size) c.tile_step_width
      c.tile_step_height s.inside_brain_tiles c.tilesX c.tilesY c.plane_width
      c.plane_height c.ball_z_size s.volume c.ball_xy_size c.kernel
      (c.ball_xy_size / 2) c.middle_z_idx c.overlap_threshold
      c.THRESHOLD_VALUE c.SOMA_CENTRE_VALUE =
    some (_walk (c.tilesY * c.tile_step_height - c.ball_xy_size)
      (c.tilesX * c.tile_step_width - c.ball_xy_size) c.tile_step_width
      c.tile_step_height s.inside_brain_tiles c.plane_width c.plane_height
      c.ball_z_size s.volume c.ball_xy_size c.kernel (c.ball_xy_size / 2)
      c.middle_z_idx c.overlap_threshold c.THRESHOLD_VALUE
      c.SOMA_CENTRE_VALUE)
  refine walkChecked_some _ _ _ _ _ _ _ _ _ _ _ _ _ _ _ _ _ _
    (show c.middle_z_idx < c.ball_z_size by
      unfold BallFilterConfig.middle_z_idx
      omega)
    (fun x hx => ?_) (fun y hy => ?_)
  · have hr : c.ball_xy_size / 2 ≤ c.ball_xy_size := Nat.div_le_self _ _
    have hxp : x + c.ball_xy_size / 2 < c.plane_width := by omega
    exact ⟨hxp, (Nat.div_lt_iff_lt_mul hw).mpr (by omega)⟩
  · have hr : c.ball_xy_size / 2 ≤ c.ball_xy_size := Nat.div_le_self _ _
    have hyp : y + c.ball_xy_size / 2 < c.plane_height := by omega
    exact ⟨hyp, (Nat.div_lt_iff_lt_mul hh).mpr (by omega)⟩

theorem claim_C9_witness :
    ((10 : ℕ) ∣ 10 ∧ (0 : ℕ) < 10 ∧ (0 : ℕ) < 3) ∧
    walkChecked cfgC1 ⟨fun _ _ _ => 0, fun _ _ _ => false, 0⟩ =
      some ((walk cfgC1 ⟨fun _ _ _ => 0, fun _ _ _ => false, 0⟩).volume) :=
  ⟨⟨⟨1, rfl⟩, by decide, by decide⟩,
    claim_C9 cfgC1 ⟨fun _ _ _ => 0, fun _ _ _ => false, 0⟩ ⟨1, rfl⟩ ⟨1, rfl⟩
      (by decide) (by decide) (by decide)⟩

end BallFilterModel
